import Mathlib

/-!
rConnect4: a shallow embedding of `src/raylib_game.c`.

The game logic of the Connect Four program (board, placement, win detection, the
computer opponent and the per-frame state machine) is embedded as pure functions that
pass the C globals explicitly.

Modelling conventions:

* the globals `board`, `currentPlayer`, `winningPlayer`, `gameOverTimer`, `gameState`
  and `isComputerMode` are the fields of `Game`;
* the two `PlaySound` triggers are recorded, in order, in the extra field `played`;
* an `int` column result is `Option (Fin BOARD_WIDTH)`: `none` stands for `-1`;
* the pointer coordinates of raylib are taken as exact rationals, and the conversion
  `(int)` of the column quotient is truncation toward zero;
* the frame time is a value of the C type `float` (IEEE 754 binary32), and the
  countdown statement is computed as C does: every operation rounds to nearest, ties to
  even, and the conversion back to `int` truncates toward zero;
* what the frame reads from its environment (keys, mouse, frame time, the value of
  `rand()`) is the record `Input`; drawing calls change no state and are left out.
-/

namespace RConnect4

/-! ## Constants and data -/

/-- The macro `BOARD_WIDTH`. -/
abbrev BOARD_WIDTH : Nat := 7

/-- The macro `BOARD_HEIGHT`. -/
abbrev BOARD_HEIGHT : Nat := 6

/-- The macro `CELL_SIZE`. -/
abbrev CELL_SIZE : Nat := 80

/-- The macro `GAME_OVER_DELAY` (milliseconds). -/
abbrev GAME_OVER_DELAY : Int := 1000

/-- The enum `CellState`; `currentPlayer` and `winningPlayer` hold its values too. -/
inductive CellState where
  | EMPTY
  | PLAYER1
  | PLAYER2
  deriving DecidableEq, Repr

/-- The enum `GameState`. -/
inductive GameState where
  | TITLE_SCREEN
  | GAME_PLAY
  | GAME_OVER
  deriving DecidableEq, Repr

/-- The two sounds of the program. -/
inductive Sound where
  | soundPlace
  | soundStart
  deriving DecidableEq, Repr

open CellState GameState

/-- The array `CellState board[BOARD_HEIGHT][BOARD_WIDTH]`: row 0 is the top row. -/
abbrev Board := Fin BOARD_HEIGHT → Fin BOARD_WIDTH → CellState

/-- The assignment `board[row][column] = value`. -/
def setCell (board : Board) (row : Fin BOARD_HEIGHT) (column : Fin BOARD_WIDTH)
    (value : CellState) : Board :=
  fun r c => if r = row ∧ c = column then value else board r c

/-- The global variables of the program, with the trace of sounds played. -/
@[ext]
structure Game where
  board : Board
  currentPlayer : CellState
  winningPlayer : CellState
  gameOverTimer : Int
  gameState : GameState
  isComputerMode : Bool
  played : List Sound

/-- The raylib type `Vector2`. -/
structure Vector2 where
  x : ℚ
  y : ℚ

/-- A value of the C type `float` (IEEE 754 binary32). A finite value is given by its
sign and its magnitude `mant * 2 ^ exp`; it is a value of the type when `mant < 2 ^ 24`
and `-149 ≤ exp ≤ 104`. -/
inductive CFloat where
  | finite (neg : Bool) (mant : Nat) (exp : Int)
  | infinite (neg : Bool)
  | nan
  deriving DecidableEq, Repr

/-- The least value of the C type `int` (32 bits). -/
abbrev INT_MIN : Int := -2147483648

/-- The greatest value of the C type `int` (32 bits). -/
abbrev INT_MAX : Int := 2147483647

/-- The number of binary digits of `n`, counted with `fuel` steps. -/
def bitLengthAux : Nat → Nat → Nat
  | 0, _ => 0
  | fuel + 1, n => if n = 0 then 0 else bitLengthAux fuel (n / 2) + 1

/-- The number of binary digits of `n`: `2 ^ (bitLength n - 1) ≤ n < 2 ^ bitLength n`
for `n > 0`. -/
def bitLength (n : Nat) : Nat :=
  bitLengthAux n n

/-- The magnitude `mant * 2 ^ exp` rounded to binary32, to nearest with ties to even:
24 significant digits, least digit not below `2 ^ -149`; `none` when the rounded
magnitude reaches `2 ^ 128` (overflow). -/
def roundMagnitude (mant : Nat) (exp : Int) : Option (Nat × Int) :=
  if mant = 0 then some (0, 0)
  else
    let top : Int := exp + bitLength mant - 1
    let lsb : Int := max (top - 23) (-149)
    if exp ≥ lsb then
      if top ≥ 128 then none else some (mant, exp)
    else
      let s : Nat := (lsb - exp).toNat
      let q := mant / 2 ^ s
      let r := mant % 2 ^ s
      let q1 := if r > 2 ^ (s - 1) ∨ (r = 2 ^ (s - 1) ∧ q % 2 = 1) then q + 1 else q
      if lsb + bitLength q1 - 1 ≥ 128 then none else some (q1, lsb)

/-- The `float` nearest to the exact value with the given sign and magnitude. -/
def roundToFloat (neg : Bool) (mant : Nat) (exp : Int) : CFloat :=
  match roundMagnitude mant exp with
  | some (m, e) => CFloat.finite neg m e
  | none => CFloat.infinite neg

/-- The conversion `(float)` of an `int`. -/
def floatOfInt (z : Int) : CFloat :=
  roundToFloat (decide (z < 0)) z.natAbs 0

/-- The product of two `float` values. -/
def floatMul : CFloat → CFloat → CFloat
  | CFloat.finite n1 m1 e1, CFloat.finite n2 m2 e2 =>
    roundToFloat (xor n1 n2) (m1 * m2) (e1 + e2)
  | CFloat.finite n1 m1 _, CFloat.infinite n2 =>
    if m1 = 0 then CFloat.nan else CFloat.infinite (xor n1 n2)
  | CFloat.infinite n1, CFloat.finite n2 m2 _ =>
    if m2 = 0 then CFloat.nan else CFloat.infinite (xor n1 n2)
  | CFloat.infinite n1, CFloat.infinite n2 => CFloat.infinite (xor n1 n2)
  | CFloat.nan, _ => CFloat.nan
  | _, CFloat.nan => CFloat.nan

/-- The difference of two `float` values. -/
def floatSub : CFloat → CFloat → CFloat
  | CFloat.finite n1 m1 e1, CFloat.finite n2 m2 e2 =>
    let e := min e1 e2
    let a : Int := (if n1 then -1 else 1) * ((m1 * 2 ^ (e1 - e).toNat : Nat) : Int)
    let b : Int := (if n2 then -1 else 1) * ((m2 * 2 ^ (e2 - e).toNat : Nat) : Int)
    if a - b = 0 then CFloat.finite (n1 && !n2) 0 0
    else roundToFloat (decide (a - b < 0)) (a - b).natAbs e
  | CFloat.finite _ _ _, CFloat.infinite n2 => CFloat.infinite (!n2)
  | CFloat.infinite n1, CFloat.finite _ _ _ => CFloat.infinite n1
  | CFloat.infinite n1, CFloat.infinite n2 =>
    if n1 = n2 then CFloat.nan else CFloat.infinite n1
  | CFloat.nan, _ => CFloat.nan
  | _, CFloat.nan => CFloat.nan

/-- The conversion `(int)` of a `float`: truncation toward zero. For a NaN, an infinity
or a value outside the range of `int` C leaves the result undefined; the value of the
x86 conversion instruction, `INT_MIN`, is taken. -/
def intOfFloat : CFloat → Int
  | CFloat.finite neg mant exp =>
    let mag : Nat := if exp ≥ 0 then mant * 2 ^ exp.toNat else mant / 2 ^ (-exp).toNat
    let z : Int := if neg then -(mag : Int) else (mag : Int)
    if INT_MIN ≤ z ∧ z ≤ INT_MAX then z else INT_MIN
  | CFloat.infinite _ => INT_MIN
  | CFloat.nan => INT_MIN

/-- The value that the statement `gameOverTimer -= GetFrameTime() * 1000` stores: both
`int` operands are converted to `float`, the product and the difference are rounded to
`float`, and the difference is converted back to `int`. -/
def countdownAfter (gameOverTimer : Int) (frameTime : CFloat) : Int :=
  intOfFloat (floatSub (floatOfInt gameOverTimer) (floatMul frameTime (floatOfInt 1000)))

/-- What one frame reads from its environment. -/
structure Input where
  /-- The result of `IsKeyPressed(KEY_ONE)`. -/
  keyOne : Bool
  /-- The result of `IsKeyPressed(KEY_TWO)`. -/
  keyTwo : Bool
  /-- The result of `IsMouseButtonPressed(MOUSE_LEFT_BUTTON)`. -/
  mouseLeft : Bool
  /-- The result of `GetMousePosition()`. -/
  mousePos : Vector2
  /-- The result of `GetFrameTime()`, in seconds. -/
  frameTime : CFloat
  /-- The result of `rand()`. -/
  rand : Nat

/-- The conversion `(int)` of the quotient `mousePos.x / CELL_SIZE`, taken exactly:
truncation toward zero. -/
def truncToInt (q : ℚ) : Int :=
  if 0 ≤ q then ⌊q⌋ else ⌈q⌉

/-- The rows in the order of the loop `for (row = BOARD_HEIGHT - 1; row >= 0; row--)`. -/
def rowsBottomUp : List (Fin BOARD_HEIGHT) :=
  (List.finRange BOARD_HEIGHT).reverse

/-! ## The functions of the program -/

/-- The function `ResetBoard`. -/
def ResetBoard (g : Game) : Game :=
  { g with board := fun _ _ => EMPTY, currentPlayer := PLAYER1 }

/-- The function `GetColumnFromMouse`, on the pointer position it reads. -/
def GetColumnFromMouse (mousePos : Vector2) : Option (Fin BOARD_WIDTH) :=
  let column : Int := truncToInt (mousePos.x / CELL_SIZE)
  if mousePos.y > BOARD_HEIGHT * CELL_SIZE then none
  else if h : column ≥ 0 ∧ column < BOARD_WIDTH then some ⟨column.toNat, by omega⟩
  else none

/-- The function `PlaceDisk`: the result and the globals after the call. -/
def PlaceDisk (column : Fin BOARD_WIDTH) (g : Game) : Bool × Game :=
  let g1 := { g with played := g.played ++ [Sound.soundPlace] }
  match rowsBottomUp.find? (fun row => g1.board row column == EMPTY) with
  | some row => (true, { g1 with board := setCell g1.board row column g1.currentPlayer })
  | none => (false, g1)

/-- The function `CheckWin`. -/
def CheckWin (board : Board) : Bool :=
  (List.finRange BOARD_HEIGHT).any fun row =>
    (List.finRange BOARD_WIDTH).any fun col =>
      board row col != EMPTY &&
        ((if h : col.val + 3 < BOARD_WIDTH then
            board row col == board row ⟨col.val + 1, by omega⟩ &&
            board row col == board row ⟨col.val + 2, by omega⟩ &&
            board row col == board row ⟨col.val + 3, by omega⟩
          else false) ||
         (if h : row.val + 3 < BOARD_HEIGHT then
            board row col == board ⟨row.val + 1, by omega⟩ col &&
            board row col == board ⟨row.val + 2, by omega⟩ col &&
            board row col == board ⟨row.val + 3, by omega⟩ col
          else false) ||
         (if h : row.val + 3 < BOARD_HEIGHT ∧ col.val + 3 < BOARD_WIDTH then
            board row col == board ⟨row.val + 1, by omega⟩ ⟨col.val + 1, by omega⟩ &&
            board row col == board ⟨row.val + 2, by omega⟩ ⟨col.val + 2, by omega⟩ &&
            board row col == board ⟨row.val + 3, by omega⟩ ⟨col.val + 3, by omega⟩
          else false) ||
         (if h : (row.val : Int) - 3 ≥ 0 ∧ col.val + 3 < BOARD_WIDTH then
            board row col == board ⟨row.val - 1, by omega⟩ ⟨col.val + 1, by omega⟩ &&
            board row col == board ⟨row.val - 2, by omega⟩ ⟨col.val + 2, by omega⟩ &&
            board row col == board ⟨row.val - 3, by omega⟩ ⟨col.val + 3, by omega⟩
          else false))

/-- The function `CheckWinningMove`: the result and the board after the call. -/
def CheckWinningMove (player : CellState) (column : Fin BOARD_WIDTH) (board : Board) :
    Bool × Board :=
  match rowsBottomUp.find? (fun row => board row column == EMPTY) with
  | some row =>
    let board1 := setCell board row column player
    let win := CheckWin board1
    let board2 := setCell board1 row column EMPTY
    (win, board2)
  | none => (false, board)

/-- One loop of `GetBestMove` over the columns still to visit: the first column at which
`CheckWinningMove(player, col)` holds, and the board after the calls made. -/
def firstWinningColumn (player : CellState) :
    List (Fin BOARD_WIDTH) → Board → Option (Fin BOARD_WIDTH) × Board
  | [], board => (none, board)
  | col :: rest, board =>
    let r := CheckWinningMove player col board
    if r.1 then (some col, r.2) else firstWinningColumn player rest r.2

/-- The function `GetRandomValidColumn`, on the value `rand()` returns. -/
def GetRandomValidColumn (rand : Nat) (board : Board) : Option (Fin BOARD_WIDTH) :=
  let validColumns := (List.finRange BOARD_WIDTH).filter fun col => board 0 col == EMPTY
  let count := validColumns.length
  if h : count > 0 then some (validColumns.get ⟨rand % count, Nat.mod_lt _ h⟩) else none

/-- The function `GetBestMove`: the chosen column and the board after the call. -/
def GetBestMove (rand : Nat) (board : Board) : Option (Fin BOARD_WIDTH) × Board :=
  match firstWinningColumn PLAYER2 (List.finRange BOARD_WIDTH) board with
  | (some col, board1) => (some col, board1)
  | (none, board1) =>
    match firstWinningColumn PLAYER1 (List.finRange BOARD_WIDTH) board1 with
    | (some col, board2) => (some col, board2)
    | (none, board2) => (GetRandomValidColumn rand board2, board2)

/-- The function `ComputerMove`. -/
def ComputerMove (rand : Nat) (g : Game) : Game :=
  let r := GetBestMove rand g.board
  let g1 := { g with board := r.2 }
  match r.1 with
  | some column => (PlaceDisk column g1).2
  | none => g1

/-- The branch of `UpdateDrawFrame` for `gameState == TITLE_SCREEN`. -/
def updateTitleScreen (i : Input) (g : Game) : Game :=
  let g1 :=
    if i.keyOne then
      { g with played := g.played ++ [Sound.soundStart], isComputerMode := true,
               gameState := GAME_PLAY }
    else g
  if i.keyTwo then
    { g1 with played := g1.played ++ [Sound.soundStart], isComputerMode := false,
              gameState := GAME_PLAY }
  else g1

/-- The statements of `UpdateDrawFrame` that follow a successful `PlaceDisk`. -/
def afterPlacement (rand : Nat) (g : Game) : Game :=
  if CheckWin g.board then
    { g with winningPlayer := g.currentPlayer, gameState := GAME_OVER,
             gameOverTimer := GAME_OVER_DELAY }
  else
    let g1 := { g with currentPlayer := if g.currentPlayer = PLAYER1 then PLAYER2 else PLAYER1 }
    if g1.isComputerMode && g1.currentPlayer == PLAYER2 then
      let g2 := ComputerMove rand g1
      if CheckWin g2.board then
        { g2 with winningPlayer := g2.currentPlayer, gameState := GAME_OVER,
                  gameOverTimer := GAME_OVER_DELAY }
      else { g2 with currentPlayer := PLAYER1 }
    else g1

/-- The statements of `UpdateDrawFrame` under `if (column != -1)`: the click on a column. -/
def clickColumn (column : Fin BOARD_WIDTH) (rand : Nat) (g : Game) : Game :=
  let r := PlaceDisk column g
  if r.1 then afterPlacement rand r.2 else r.2

/-- The branch of `UpdateDrawFrame` for `gameState == GAME_PLAY`. -/
def updateGamePlay (i : Input) (g : Game) : Game :=
  if i.mouseLeft then
    match GetColumnFromMouse i.mousePos with
    | some column => clickColumn column i.rand g
    | none => g
  else g

/-- The branch of `UpdateDrawFrame` for `gameState == GAME_OVER`. -/
def updateGameOver (i : Input) (g : Game) : Game :=
  let g1 :=
    if g.gameOverTimer > 0 then
      { g with gameOverTimer := countdownAfter g.gameOverTimer i.frameTime }
    else g
  if i.mouseLeft || decide (g1.gameOverTimer ≤ 0) then
    { ResetBoard g1 with gameState := TITLE_SCREEN, winningPlayer := EMPTY }
  else g1

/-- The function `UpdateDrawFrame`: one tick of the game. -/
def UpdateDrawFrame (i : Input) (g : Game) : Game :=
  match g.gameState with
  | TITLE_SCREEN => updateTitleScreen i g
  | GAME_PLAY => updateGamePlay i g
  | GAME_OVER => updateGameOver i g

/-- The globals as their initialisers set them, before `main` runs. -/
def startGlobals : Game :=
  { board := fun _ _ => EMPTY
    currentPlayer := PLAYER1
    winningPlayer := EMPTY
    gameOverTimer := 0
    gameState := TITLE_SCREEN
    isComputerMode := false
    played := [] }

/-- The state when `main` enters its frame loop, after its call of `ResetBoard`. -/
def initialGame : Game :=
  ResetBoard startGlobals

/-- The states the frame loop of `main` can reach. -/
inductive Reachable : Game → Prop where
  | initial : Reachable initialGame
  | tick (i : Input) (g : Game) : Reachable g → Reachable (UpdateDrawFrame i g)


/-! ## Vocabulary of the specification -/

/-- The cell at `(row, col)` when both indices lie inside the board, `none` otherwise. -/
def cellAt (board : Board) (row col : Int) : Option CellState :=
  if h : 0 ≤ row ∧ row < BOARD_HEIGHT ∧ 0 ≤ col ∧ col < BOARD_WIDTH then
    some (board ⟨row.toNat, by omega⟩ ⟨col.toNat, by omega⟩)
  else none

/-- The four line shapes, as (row step, column step): along a row, along a column, the
down-right diagonal and the up-right anti-diagonal. -/
def lineDirections : List (Int × Int) :=
  [(0, 1), (1, 0), (1, 1), (-1, 1)]

/-- Four consecutive in-bounds cells along one of the four line shapes all hold `player`. -/
def LineOf (board : Board) (player : CellState) : Prop :=
  ∃ (row col : Int) (d : Int × Int), d ∈ lineDirections ∧
    ∀ k : Int, 0 ≤ k → k < 4 → cellAt board (row + k * d.1) (col + k * d.2) = some player

/-- The board has a four-in-a-row of some player. -/
def FourInARow (board : Board) : Prop :=
  ∃ player, player ≠ EMPTY ∧ LineOf board player


/-- The number of occupied (not `EMPTY`) cells of a column. -/
def occupiedCount (board : Board) (column : Fin BOARD_WIDTH) : Nat :=
  (List.finRange BOARD_HEIGHT).countP fun row => board row column != EMPTY

/-- The cell `row` is the lowest `EMPTY` cell of the column: it is `EMPTY` and no
`EMPTY` cell of the column has a larger row index. -/
def IsLowestEmpty (board : Board) (column : Fin BOARD_WIDTH) (row : Fin BOARD_HEIGHT) : Prop :=
  board row column = EMPTY ∧ ∀ row', board row' column = EMPTY → row' ≤ row

/-- A board given by its rows, top row first; a missing cell is `EMPTY`. -/
def boardOfRows (rows : List (List CellState)) : Board :=
  fun row col => (rows.getD row.val []).getD col.val EMPTY

/-- The all-`EMPTY` board. -/
def emptyBoard : Board :=
  fun _ _ => EMPTY

/-- A board whose only runs of four equal disks cross a board edge: cells (0,4), (0,5),
(0,6), (1,0) follow each other in memory, and (0,4), (0,5), (0,6), (0,0) close a row
cyclically; column 0 holds rows 3, 4, 5, 0, 1. -/
def wrapBoard : Board :=
  boardOfRows
    [[PLAYER1, EMPTY, EMPTY, EMPTY, PLAYER1, PLAYER1, PLAYER1],
     [PLAYER1, EMPTY, EMPTY, EMPTY, EMPTY, EMPTY, EMPTY],
     [EMPTY, EMPTY, EMPTY, EMPTY, EMPTY, EMPTY, EMPTY],
     [PLAYER1, EMPTY, EMPTY, EMPTY, EMPTY, EMPTY, EMPTY],
     [PLAYER1, EMPTY, EMPTY, EMPTY, EMPTY, EMPTY, EMPTY],
     [PLAYER1, EMPTY, EMPTY, EMPTY, EMPTY, EMPTY, EMPTY]]

/-- A full board (all 42 cells occupied, 21 disks each) with no four-in-a-row. -/
def fullBoard : Board :=
  boardOfRows
    [[PLAYER1, PLAYER1, PLAYER2, PLAYER2, PLAYER1, PLAYER1, PLAYER2],
     [PLAYER2, PLAYER2, PLAYER1, PLAYER1, PLAYER2, PLAYER2, PLAYER1],
     [PLAYER1, PLAYER1, PLAYER2, PLAYER2, PLAYER1, PLAYER1, PLAYER2],
     [PLAYER2, PLAYER2, PLAYER1, PLAYER1, PLAYER2, PLAYER2, PLAYER1],
     [PLAYER1, PLAYER1, PLAYER2, PLAYER2, PLAYER1, PLAYER1, PLAYER2],
     [PLAYER2, PLAYER2, PLAYER1, PLAYER1, PLAYER2, PLAYER2, PLAYER1]]

/-- A game in play on `board`, with the given mode and active player. -/
def playingOn (board : Board) (isComputerMode : Bool) (currentPlayer : CellState) : Game :=
  { board := board
    currentPlayer := currentPlayer
    winningPlayer := EMPTY
    gameOverTimer := 0
    gameState := GAME_PLAY
    isComputerMode := isComputerMode
    played := [] }

/-- Placing a disk of `player` in `column` completes a four-in-a-row of `player`: the
disk lands on the lowest `EMPTY` cell of the column and then lies on a line of four. -/
def WinsByPlacing (board : Board) (player : CellState) (column : Fin BOARD_WIDTH) : Prop :=
  ∃ row, IsLowestEmpty board column row ∧ LineOf (setCell board row column player) player

/-- A position of a game against the computer, PlayerTwo to move: PlayerOne completes the
bottom row by placing in column 3, PlayerTwo completes column 6 by placing there. -/
def blockBoard : Board :=
  boardOfRows
    [[EMPTY, EMPTY, EMPTY, EMPTY, EMPTY, EMPTY, EMPTY],
     [EMPTY, EMPTY, EMPTY, EMPTY, EMPTY, EMPTY, EMPTY],
     [PLAYER2, EMPTY, EMPTY, EMPTY, EMPTY, EMPTY, EMPTY],
     [PLAYER1, EMPTY, EMPTY, EMPTY, EMPTY, EMPTY, PLAYER2],
     [PLAYER1, EMPTY, EMPTY, EMPTY, EMPTY, EMPTY, PLAYER2],
     [PLAYER1, PLAYER1, PLAYER1, EMPTY, EMPTY, EMPTY, PLAYER2]]

/-- Gravity: in every column no `EMPTY` cell lies below an occupied cell, that is, the
occupied cells of a column are contiguous from the bottom row upward. -/
def Gravity (board : Board) : Prop :=
  ∀ (column : Fin BOARD_WIDTH) (row row' : Fin BOARD_HEIGHT),
    board row column ≠ EMPTY → row < row' → board row' column ≠ EMPTY

/-- The turn invariant of the frame loop: on the title screen PlayerOne is the active
player, in play against the computer PlayerOne is the active player, and outside the
game-over screen no winner is recorded. -/
def TurnInvariant (g : Game) : Prop :=
  (g.gameState = TITLE_SCREEN → g.currentPlayer = PLAYER1) ∧
    (g.gameState = GAME_PLAY → g.isComputerMode = true → g.currentPlayer = PLAYER1) ∧
    (g.gameState ≠ GAME_OVER → g.winningPlayer = EMPTY)

/-- The `float` zero. -/
def floatZero : CFloat :=
  CFloat.finite false 0 0

/-- The frame in which the key `1` is pressed and nothing else happens. -/
def pressOne : Input :=
  { keyOne := true, keyTwo := false, mouseLeft := false, mousePos := ⟨0, 0⟩,
    frameTime := floatZero, rand := 0 }

/-- The frame in which the key `2` is pressed and nothing else happens. -/
def pressTwo : Input :=
  { keyOne := false, keyTwo := true, mouseLeft := false, mousePos := ⟨0, 0⟩,
    frameTime := floatZero, rand := 0 }

/-- The frame of a click at the pointer position `(x, y)`, in which `rand()` would
return `rand`. -/
def clickAt (x y : ℚ) (rand : Nat) : Input :=
  { keyOne := false, keyTwo := false, mouseLeft := true, mousePos := ⟨x, y⟩,
    frameTime := floatZero, rand := rand }

/-- A game in play against the computer, PlayerOne to move, after `clicks` clicks each
answered by the computer. -/
def computerGame (board : Board) (clicks : Nat) : Game :=
  { board := board
    currentPlayer := PLAYER1
    winningPlayer := EMPTY
    gameOverTimer := 0
    gameState := GAME_PLAY
    isComputerMode := true
    played := Sound.soundStart :: List.replicate (2 * clicks) Sound.soundPlace }

/-- The board one click before `blockBoard`: the bottom cell of column 2 is still `EMPTY`. -/
def beforeBlockBoard : Board :=
  boardOfRows
    [[EMPTY, EMPTY, EMPTY, EMPTY, EMPTY, EMPTY, EMPTY],
     [EMPTY, EMPTY, EMPTY, EMPTY, EMPTY, EMPTY, EMPTY],
     [PLAYER2, EMPTY, EMPTY, EMPTY, EMPTY, EMPTY, EMPTY],
     [PLAYER1, EMPTY, EMPTY, EMPTY, EMPTY, EMPTY, PLAYER2],
     [PLAYER1, EMPTY, EMPTY, EMPTY, EMPTY, EMPTY, PLAYER2],
     [PLAYER1, PLAYER1, EMPTY, EMPTY, EMPTY, EMPTY, PLAYER2]]

/-- The pointer-to-column mapping in the words of the specification: the column is
`floor(x / CELL_SIZE)` when the pointer is not below the board and that value is a valid
column index, and there is no column otherwise. -/
def columnBySpec (mousePos : Vector2) : Option (Fin BOARD_WIDTH) :=
  if h : mousePos.y ≤ BOARD_HEIGHT * CELL_SIZE ∧ 0 ≤ ⌊mousePos.x / CELL_SIZE⌋ ∧
      ⌊mousePos.x / CELL_SIZE⌋ < BOARD_WIDTH then
    some ⟨⌊mousePos.x / CELL_SIZE⌋.toNat, by omega⟩
  else none

/-- The two-human game after the key `2` and six clicks on column 0, which is then full;
PlayerOne is to move. -/
def fullColumnGame : Game :=
  clickColumn 0 0 (clickColumn 0 0 (clickColumn 0 0 (clickColumn 0 0 (clickColumn 0 0
    (clickColumn 0 0 (UpdateDrawFrame pressTwo initialGame))))))

/-- A game-over state with the countdown just started: PlayerOne has won on the bottom
row. -/
def gameOverStart : Game :=
  { board := boardOfRows
      [[EMPTY, EMPTY, EMPTY, EMPTY, EMPTY, EMPTY, EMPTY],
       [EMPTY, EMPTY, EMPTY, EMPTY, EMPTY, EMPTY, EMPTY],
       [EMPTY, EMPTY, EMPTY, EMPTY, EMPTY, EMPTY, EMPTY],
       [EMPTY, EMPTY, EMPTY, EMPTY, EMPTY, EMPTY, EMPTY],
       [PLAYER2, PLAYER2, PLAYER2, EMPTY, EMPTY, EMPTY, EMPTY],
       [PLAYER1, PLAYER1, PLAYER1, PLAYER1, EMPTY, EMPTY, EMPTY]]
    currentPlayer := PLAYER1
    winningPlayer := PLAYER1
    gameOverTimer := GAME_OVER_DELAY
    gameState := GAME_OVER
    isComputerMode := false
    played := [] }

/-- A frame without key or click that lasts `frameTime` seconds. -/
def idleFrame (frameTime : CFloat) : Input :=
  { keyOne := false, keyTwo := false, mouseLeft := false, mousePos := ⟨0, 0⟩,
    frameTime := frameTime, rand := 0 }

/-- A position of a game against the computer, PlayerTwo to move: PlayerTwo completes
column 6 by placing there, and PlayerOne completes no four-in-a-row in any column. -/
def ownWinBoard : Board :=
  boardOfRows
    [[EMPTY, EMPTY, EMPTY, EMPTY, EMPTY, EMPTY, EMPTY],
     [EMPTY, EMPTY, EMPTY, EMPTY, EMPTY, EMPTY, EMPTY],
     [EMPTY, EMPTY, EMPTY, EMPTY, EMPTY, EMPTY, EMPTY],
     [EMPTY, EMPTY, EMPTY, EMPTY, EMPTY, EMPTY, PLAYER2],
     [PLAYER1, EMPTY, EMPTY, EMPTY, EMPTY, EMPTY, PLAYER2],
     [PLAYER1, EMPTY, PLAYER1, EMPTY, PLAYER1, EMPTY, PLAYER2]]

/-- A position in which neither player completes a four-in-a-row by one placement, and
columns 0 and 6 are full. -/
def quietBoard : Board :=
  boardOfRows
    [[PLAYER2, EMPTY, EMPTY, EMPTY, EMPTY, EMPTY, PLAYER1],
     [PLAYER1, EMPTY, EMPTY, EMPTY, EMPTY, EMPTY, PLAYER2],
     [PLAYER2, EMPTY, EMPTY, EMPTY, EMPTY, EMPTY, PLAYER1],
     [PLAYER1, EMPTY, EMPTY, EMPTY, EMPTY, EMPTY, PLAYER2],
     [PLAYER2, EMPTY, EMPTY, EMPTY, EMPTY, EMPTY, PLAYER1],
     [PLAYER1, EMPTY, EMPTY, EMPTY, EMPTY, EMPTY, PLAYER2]]

/-- The frame loop over a sequence of ticks, given by what each frame reads. -/
def runTicks (inputs : List Input) (g : Game) : Game :=
  inputs.foldl (fun g i => UpdateDrawFrame i g) g

/-- The tick has a click, and the click maps to `column`. -/
def ClicksColumn (i : Input) (column : Fin BOARD_WIDTH) : Prop :=
  i.mouseLeft = true ∧ GetColumnFromMouse i.mousePos = some column

/-- Two states agree on what the play branch of the frame reads and decides: board,
active player, game state, mode, and the winner once the game is over. -/
def SamePlay (g g' : Game) : Prop :=
  g.board = g'.board ∧ g.currentPlayer = g'.currentPlayer ∧ g.gameState = g'.gameState ∧
    g.isComputerMode = g'.isComputerMode ∧
    (g.gameState = GAME_OVER → g.winningPlayer = g'.winningPlayer)

/-- The clicks on the given columns, one after the other, with `rand()` returning 0. -/
def clickColumns (columns : List (Fin BOARD_WIDTH)) (g : Game) : Game :=
  columns.foldl (fun g column => clickColumn column 0 g) g

/-- The winner invariant of the frame loop: the active player is PlayerOne or PlayerTwo;
on the title screen the board is empty; in play the board has no four-in-a-row; and on
the game-over screen the recorded winner is a player who holds a line of four. -/
def WinnerInvariant (g : Game) : Prop :=
  (g.currentPlayer = PLAYER1 ∨ g.currentPlayer = PLAYER2) ∧
    (g.gameState = TITLE_SCREEN → ∀ row col, g.board row col = EMPTY) ∧
    (g.gameState = GAME_PLAY → ¬ FourInARow g.board) ∧
    (g.gameState = GAME_OVER →
      (g.winningPlayer = PLAYER1 ∨ g.winningPlayer = PLAYER2) ∧
        LineOf g.board g.winningPlayer)

/-- The two-human game after the key `2` and the clicks 3, 0, 3, 0, 3, 0, 3: PlayerOne
has won in column 3. -/
def verticalWinGame : Game :=
  clickColumn 3 0 (clickColumn 0 0 (clickColumn 3 0 (clickColumn 0 0 (clickColumn 3 0
    (clickColumn 0 0 (clickColumn 3 0 (UpdateDrawFrame pressTwo initialGame)))))))

/-- The number of disks on the board. -/
def diskCount (board : Board) : Nat :=
  ((List.finRange BOARD_WIDTH).map (occupiedCount board)).sum

/-- The parity invariant of the frame loop: in play against the computer, when the human
is awaited, the board holds an even number of disks. -/
def ParityInvariant (g : Game) : Prop :=
  g.gameState = GAME_PLAY → g.isComputerMode = true → Even (diskCount g.board)

/-- The `float` is at least zero: a finite value that is positive or a zero, or
positive infinity. -/
def FloatNonneg : CFloat → Prop
  | CFloat.finite neg mant _ => neg = false ∨ mant = 0
  | CFloat.infinite neg => neg = false
  | CFloat.nan => False

/-- The `float` is at most zero: a finite value that is negative or a zero, or negative
infinity. -/
def FloatNonpos : CFloat → Prop
  | CFloat.finite neg mant _ => neg = true ∨ mant = 0
  | CFloat.infinite neg => neg = true
  | CFloat.nan => False

/-- The `float` literal `0.016f`, a frame of 16 milliseconds. -/
def float16ms : CFloat :=
  CFloat.finite false 8589935 (-29)

/-- The `float` literal `0.999f`, a frame of 999 milliseconds. -/
def float999ms : CFloat :=
  CFloat.finite false 16760439 (-24)

/-! # Theorems -/

/-! ## Win detection -/

theorem cellAt_eq (board : Board) (r c : Int) (row : Fin BOARD_HEIGHT)
    (col : Fin BOARD_WIDTH) (hr : r = row.val) (hc : c = col.val) :
    cellAt board r c = some (board row col) := by
  subst hr hc
  have h : 0 ≤ (row.val : Int) ∧ (row.val : Int) < BOARD_HEIGHT ∧
      0 ≤ (col.val : Int) ∧ (col.val : Int) < BOARD_WIDTH := by
    have := row.isLt
    have := col.isLt
    omega
  simp [cellAt, h]

theorem cellAt_some (board : Board) (r c : Int) (p : CellState)
    (h : cellAt board r c = some p) :
    ∃ (row : Fin BOARD_HEIGHT) (col : Fin BOARD_WIDTH),
      r = row.val ∧ c = col.val ∧ board row col = p := by
  unfold cellAt at h
  split at h
  · rename_i hb
    refine ⟨⟨r.toNat, by omega⟩, ⟨c.toNat, by omega⟩, ?_, ?_, ?_⟩
    · simp; omega
    · simp; omega
    · simpa using h
  · simp at h

theorem checkWin_of_cell (board : Board) (row : Fin BOARD_HEIGHT) (col : Fin BOARD_WIDTH)
    (h : (board row col != EMPTY &&
        ((if h : col.val + 3 < BOARD_WIDTH then
            board row col == board row ⟨col.val + 1, by omega⟩ &&
            board row col == board row ⟨col.val + 2, by omega⟩ &&
            board row col == board row ⟨col.val + 3, by omega⟩
          else false) ||
         (if h : row.val + 3 < BOARD_HEIGHT then
            board row col == board ⟨row.val + 1, by omega⟩ col &&
            board row col == board ⟨row.val + 2, by omega⟩ col &&
            board row col == board ⟨row.val + 3, by omega⟩ col
          else false) ||
         (if h : row.val + 3 < BOARD_HEIGHT ∧ col.val + 3 < BOARD_WIDTH then
            board row col == board ⟨row.val + 1, by omega⟩ ⟨col.val + 1, by omega⟩ &&
            board row col == board ⟨row.val + 2, by omega⟩ ⟨col.val + 2, by omega⟩ &&
            board row col == board ⟨row.val + 3, by omega⟩ ⟨col.val + 3, by omega⟩
          else false) ||
         (if h : (row.val : Int) - 3 ≥ 0 ∧ col.val + 3 < BOARD_WIDTH then
            board row col == board ⟨row.val - 1, by omega⟩ ⟨col.val + 1, by omega⟩ &&
            board row col == board ⟨row.val - 2, by omega⟩ ⟨col.val + 2, by omega⟩ &&
            board row col == board ⟨row.val - 3, by omega⟩ ⟨col.val + 3, by omega⟩
          else false))) = true) :
    CheckWin board = true := by
  unfold CheckWin
  rw [List.any_eq_true]
  refine ⟨row, List.mem_finRange row, ?_⟩
  rw [List.any_eq_true]
  exact ⟨col, List.mem_finRange col, h⟩

theorem fourInARow_of_checkWin (board : Board) (h : CheckWin board = true) :
    FourInARow board := by
  unfold CheckWin at h
  rw [List.any_eq_true] at h
  obtain ⟨row, -, h⟩ := h
  rw [List.any_eq_true] at h
  obtain ⟨col, -, h⟩ := h
  rw [Bool.and_eq_true, bne_iff_ne] at h
  obtain ⟨hne, h⟩ := h
  refine ⟨board row col, hne, ?_⟩
  simp only [Bool.or_eq_true] at h
  rcases h with ((h | h) | h) | h
  · split at h
    · rename_i hb
      simp only [Bool.and_eq_true, beq_iff_eq] at h
      obtain ⟨⟨h1, h2⟩, h3⟩ := h
      refine ⟨row.val, col.val, (0, 1), by simp [lineDirections], ?_⟩
      intro k hk0 hk4
      interval_cases k
      · exact cellAt_eq board _ _ row col (by simp) (by simp)
      · rw [h1]; exact cellAt_eq board _ _ row ⟨col.val + 1, by omega⟩ (by simp) (by simp)
      · rw [h2]; exact cellAt_eq board _ _ row ⟨col.val + 2, by omega⟩ (by simp) (by simp)
      · rw [h3]; exact cellAt_eq board _ _ row ⟨col.val + 3, by omega⟩ (by simp) (by simp)
    · simp at h
  · split at h
    · rename_i hb
      simp only [Bool.and_eq_true, beq_iff_eq] at h
      obtain ⟨⟨h1, h2⟩, h3⟩ := h
      refine ⟨row.val, col.val, (1, 0), by simp [lineDirections], ?_⟩
      intro k hk0 hk4
      interval_cases k
      · exact cellAt_eq board _ _ row col (by simp) (by simp)
      · rw [h1]; exact cellAt_eq board _ _ ⟨row.val + 1, by omega⟩ col (by simp) (by simp)
      · rw [h2]; exact cellAt_eq board _ _ ⟨row.val + 2, by omega⟩ col (by simp) (by simp)
      · rw [h3]; exact cellAt_eq board _ _ ⟨row.val + 3, by omega⟩ col (by simp) (by simp)
    · simp at h
  · split at h
    · rename_i hb
      simp only [Bool.and_eq_true, beq_iff_eq] at h
      obtain ⟨⟨h1, h2⟩, h3⟩ := h
      refine ⟨row.val, col.val, (1, 1), by simp [lineDirections], ?_⟩
      intro k hk0 hk4
      interval_cases k
      · exact cellAt_eq board _ _ row col (by simp) (by simp)
      · rw [h1]
        exact cellAt_eq board _ _ ⟨row.val + 1, by omega⟩ ⟨col.val + 1, by omega⟩
          (by simp) (by simp)
      · rw [h2]
        exact cellAt_eq board _ _ ⟨row.val + 2, by omega⟩ ⟨col.val + 2, by omega⟩
          (by simp) (by simp)
      · rw [h3]
        exact cellAt_eq board _ _ ⟨row.val + 3, by omega⟩ ⟨col.val + 3, by omega⟩
          (by simp) (by simp)
    · simp at h
  · split at h
    · rename_i hb
      simp only [Bool.and_eq_true, beq_iff_eq] at h
      obtain ⟨⟨h1, h2⟩, h3⟩ := h
      refine ⟨row.val, col.val, (-1, 1), by simp [lineDirections], ?_⟩
      intro k hk0 hk4
      interval_cases k
      · exact cellAt_eq board _ _ row col (by simp) (by simp)
      · rw [h1]
        exact cellAt_eq board _ _ ⟨row.val - 1, by omega⟩ ⟨col.val + 1, by omega⟩
          (by simp; omega) (by simp)
      · rw [h2]
        exact cellAt_eq board _ _ ⟨row.val - 2, by omega⟩ ⟨col.val + 2, by omega⟩
          (by simp; omega) (by simp)
      · rw [h3]
        exact cellAt_eq board _ _ ⟨row.val - 3, by omega⟩ ⟨col.val + 3, by omega⟩
          (by simp; omega) (by simp)
    · simp at h

theorem board_congr (board : Board) (r r' : Fin BOARD_HEIGHT) (c c' : Fin BOARD_WIDTH)
    (hr : (r.val : Int) = r'.val) (hc : (c.val : Int) = c'.val) : board r c = board r' c' := by
  have e1 : r = r' := Fin.ext (by omega)
  have e2 : c = c' := Fin.ext (by omega)
  rw [e1, e2]

theorem checkWin_of_fourInARow (board : Board) (h : FourInARow board) :
    CheckWin board = true := by
  obtain ⟨p, hp, r, c, d, hd, hk⟩ := h
  obtain ⟨row0, col0, hr0, hc0, hb0⟩ := cellAt_some board _ _ p (hk 0 (by omega) (by omega))
  obtain ⟨row1, col1, hr1, hc1, hb1⟩ := cellAt_some board _ _ p (hk 1 (by omega) (by omega))
  obtain ⟨row2, col2, hr2, hc2, hb2⟩ := cellAt_some board _ _ p (hk 2 (by omega) (by omega))
  obtain ⟨row3, col3, hr3, hc3, hb3⟩ := cellAt_some board _ _ p (hk 3 (by omega) (by omega))
  have hl0 := row0.isLt
  have hl1 := row1.isLt
  have hl2 := row2.isLt
  have hl3 := row3.isLt
  have hm0 := col0.isLt
  have hm1 := col1.isLt
  have hm2 := col2.isLt
  have hm3 := col3.isLt
  apply checkWin_of_cell board row0 col0
  rw [Bool.and_eq_true, bne_iff_ne]
  refine ⟨by rw [hb0]; exact hp, ?_⟩
  simp only [lineDirections, List.mem_cons, List.mem_singleton, List.not_mem_nil, or_false] at hd
  simp only [Bool.or_eq_true]
  rcases hd with rfl | rfl | rfl | rfl
  · simp only at hr0 hr1 hr2 hr3 hc0 hc1 hc2 hc3
    left; left; left
    have hc : col0.val + 3 < BOARD_WIDTH := by omega
    have e1 : board row0 ⟨col0.val + 1, by omega⟩ = p :=
      (board_congr board _ row1 _ col1 (by omega) (by simp only [Nat.cast_add]; omega)).trans hb1
    have e2 : board row0 ⟨col0.val + 2, by omega⟩ = p :=
      (board_congr board _ row2 _ col2 (by omega) (by simp only [Nat.cast_add]; omega)).trans hb2
    have e3 : board row0 ⟨col0.val + 3, by omega⟩ = p :=
      (board_congr board _ row3 _ col3 (by omega) (by simp only [Nat.cast_add]; omega)).trans hb3
    rw [dif_pos hc]
    simp [hb0, e1, e2, e3]
  · simp only at hr0 hr1 hr2 hr3 hc0 hc1 hc2 hc3
    left; left; right
    have hr : row0.val + 3 < BOARD_HEIGHT := by omega
    have e1 : board ⟨row0.val + 1, by omega⟩ col0 = p :=
      (board_congr board _ row1 _ col1 (by simp only [Nat.cast_add]; omega) (by omega)).trans hb1
    have e2 : board ⟨row0.val + 2, by omega⟩ col0 = p :=
      (board_congr board _ row2 _ col2 (by simp only [Nat.cast_add]; omega) (by omega)).trans hb2
    have e3 : board ⟨row0.val + 3, by omega⟩ col0 = p :=
      (board_congr board _ row3 _ col3 (by simp only [Nat.cast_add]; omega) (by omega)).trans hb3
    rw [dif_pos hr]
    simp [hb0, e1, e2, e3]
  · simp only at hr0 hr1 hr2 hr3 hc0 hc1 hc2 hc3
    left; right
    have hrc : row0.val + 3 < BOARD_HEIGHT ∧ col0.val + 3 < BOARD_WIDTH := by omega
    have e1 : board ⟨row0.val + 1, by omega⟩ ⟨col0.val + 1, by omega⟩ = p :=
      (board_congr board _ row1 _ col1 (by simp only [Nat.cast_add]; omega)
        (by simp only [Nat.cast_add]; omega)).trans hb1
    have e2 : board ⟨row0.val + 2, by omega⟩ ⟨col0.val + 2, by omega⟩ = p :=
      (board_congr board _ row2 _ col2 (by simp only [Nat.cast_add]; omega)
        (by simp only [Nat.cast_add]; omega)).trans hb2
    have e3 : board ⟨row0.val + 3, by omega⟩ ⟨col0.val + 3, by omega⟩ = p :=
      (board_congr board _ row3 _ col3 (by simp only [Nat.cast_add]; omega)
        (by simp only [Nat.cast_add]; omega)).trans hb3
    rw [dif_pos hrc]
    simp [hb0, e1, e2, e3]
  · simp only at hr0 hr1 hr2 hr3 hc0 hc1 hc2 hc3
    right
    have hrc : (row0.val : Int) - 3 ≥ 0 ∧ col0.val + 3 < BOARD_WIDTH := by omega
    have e1 : board ⟨row0.val - 1, by omega⟩ ⟨col0.val + 1, by omega⟩ = p :=
      (board_congr board _ row1 _ col1 (by simp only []; omega)
        (by simp only [Nat.cast_add]; omega)).trans hb1
    have e2 : board ⟨row0.val - 2, by omega⟩ ⟨col0.val + 2, by omega⟩ = p :=
      (board_congr board _ row2 _ col2 (by simp only []; omega)
        (by simp only [Nat.cast_add]; omega)).trans hb2
    have e3 : board ⟨row0.val - 3, by omega⟩ ⟨col0.val + 3, by omega⟩ = p :=
      (board_congr board _ row3 _ col3 (by simp only []; omega)
        (by simp only [Nat.cast_add]; omega)).trans hb3
    rw [dif_pos hrc]
    simp [hb0, e1, e2, e3]

theorem checkWin_iff (board : Board) : CheckWin board = true ↔ FourInARow board :=
  ⟨fourInARow_of_checkWin board, checkWin_of_fourInARow board⟩

theorem rowsBottomUp_eq : rowsBottomUp = [5, 4, 3, 2, 1, 0] := by decide

theorem mem_rowsBottomUp (row : Fin BOARD_HEIGHT) : row ∈ rowsBottomUp := by
  simp [rowsBottomUp]

theorem find_rows_some (p : Fin BOARD_HEIGHT → Bool) (row : Fin BOARD_HEIGHT)
    (h : rowsBottomUp.find? p = some row) :
    p row = true ∧ ∀ row', row < row' → p row' = false := by
  rw [rowsBottomUp_eq] at h
  simp only [List.find?_cons, List.find?_nil] at h
  cases h5 : p 5 <;> cases h4 : p 4 <;> cases h3 : p 3 <;> cases h2 : p 2 <;>
    cases h1 : p 1 <;> cases h0 : p 0 <;> simp only [h5, h4, h3, h2, h1, h0] at h
  all_goals
    first
    | exact Option.noConfusion h
    | (injection h with h
       subst h
       refine ⟨by assumption, ?_⟩
       intro row' hlt
       fin_cases row' <;> first | assumption | exact absurd hlt (by decide))

theorem find_rows_none (p : Fin BOARD_HEIGHT → Bool)
    (h : rowsBottomUp.find? p = none) : ∀ row, p row = false := by
  intro row
  have := List.find?_eq_none.mp h row (mem_rowsBottomUp row)
  simpa using this

theorem find_rows_isSome (p : Fin BOARD_HEIGHT → Bool) (row : Fin BOARD_HEIGHT)
    (h : p row = true) : ∃ row', rowsBottomUp.find? p = some row' := by
  cases hf : rowsBottomUp.find? p with
  | some row' => exact ⟨row', rfl⟩
  | none => rw [find_rows_none p hf row] at h; exact absurd h (by simp)

/-- C1: `CheckWin` returns true exactly when four consecutive in-bounds cells along a
row, a column, a down-right diagonal or an up-right anti-diagonal hold the same player;
it returns false on the all-`EMPTY` board and on a board whose only runs of four wrap
past a board edge. -/
theorem CheckWin_iff_FourInARow (board : Board) :
    (CheckWin board = true ↔ FourInARow board) ∧
      CheckWin emptyBoard = false ∧ CheckWin wrapBoard = false :=
  ⟨checkWin_iff board, by decide, by decide⟩

/-! ## Placement -/

theorem countP_update {α : Type} (l : List α) (a : α) (q q' : α → Bool)
    (hnd : l.Nodup) (ha : a ∈ l) (hq : q a = false) (hq' : q' a = true)
    (hother : ∀ b, b ≠ a → q' b = q b) : l.countP q' = l.countP q + 1 := by
  induction l with
  | nil => simp at ha
  | cons x xs ih =>
    rw [List.nodup_cons] at hnd
    by_cases hx : x = a
    · subst hx
      have hrest : xs.countP q' = xs.countP q := by
        apply List.countP_congr
        intro b hb
        have hne : b ≠ x := fun e => hnd.1 (e ▸ hb)
        rw [hother b hne]
      rw [List.countP_cons, List.countP_cons, hrest, hq, hq']
      simp
    · have ha' : a ∈ xs := by
        rcases List.mem_cons.mp ha with e | e
        · exact absurd e.symm hx
        · exact e
      rw [List.countP_cons, List.countP_cons, ih hnd.2 ha', hother x hx]
      omega

theorem setCell_same (board : Board) (row : Fin BOARD_HEIGHT) (column : Fin BOARD_WIDTH)
    (value : CellState) : setCell board row column value row column = value := by
  simp [setCell]

theorem setCell_other (board : Board) (row r : Fin BOARD_HEIGHT) (column c : Fin BOARD_WIDTH)
    (value : CellState) (h : ¬ (r = row ∧ c = column)) :
    setCell board row column value r c = board r c := by
  simp [setCell, h]

theorem occupiedCount_setCell (board : Board) (row : Fin BOARD_HEIGHT)
    (column : Fin BOARD_WIDTH) (value : CellState) (he : board row column = EMPTY)
    (hv : value ≠ EMPTY) :
    occupiedCount (setCell board row column value) column = occupiedCount board column + 1 := by
  unfold occupiedCount
  apply countP_update _ row _ _ (List.nodup_finRange _) (List.mem_finRange row)
  · simp [he]
  · simp [setCell_same, hv]
  · intro b hb
    rw [setCell_other board row b column column value (fun h => hb h.1)]

theorem placeDisk_some (column : Fin BOARD_WIDTH) (g : Game) (row : Fin BOARD_HEIGHT)
    (h : rowsBottomUp.find? (fun row => g.board row column == EMPTY) = some row) :
    PlaceDisk column g =
      (true, { g with played := g.played ++ [Sound.soundPlace],
                      board := setCell g.board row column g.currentPlayer }) := by
  unfold PlaceDisk
  simp only [h]

theorem placeDisk_none (column : Fin BOARD_WIDTH) (g : Game)
    (h : rowsBottomUp.find? (fun row => g.board row column == EMPTY) = none) :
    PlaceDisk column g = (false, { g with played := g.played ++ [Sound.soundPlace] }) := by
  unfold PlaceDisk
  simp only [h]

theorem find_isLowestEmpty (board : Board) (column : Fin BOARD_WIDTH) (row : Fin BOARD_HEIGHT)
    (h : rowsBottomUp.find? (fun row => board row column == EMPTY) = some row) :
    IsLowestEmpty board column row := by
  obtain ⟨h1, h2⟩ := find_rows_some _ row h
  refine ⟨by simpa using h1, ?_⟩
  intro row' he
  by_contra hlt
  have := h2 row' (not_le.mp hlt)
  simp [he] at this

theorem find_of_hasEmpty (board : Board) (column : Fin BOARD_WIDTH) (row : Fin BOARD_HEIGHT)
    (h : board row column = EMPTY) :
    ∃ row', rowsBottomUp.find? (fun row => board row column == EMPTY) = some row' :=
  find_rows_isSome _ row (by simp [h])

theorem find_of_full (board : Board) (column : Fin BOARD_WIDTH)
    (h : ∀ row, board row column ≠ EMPTY) :
    rowsBottomUp.find? (fun row => board row column == EMPTY) = none := by
  rw [List.find?_eq_none]
  intro row _
  simp [h row]

/-- C2: on a column that has an `EMPTY` cell, with PlayerOne or PlayerTwo active,
`PlaceDisk` returns success, writes the active player's disk into the lowest `EMPTY`
cell of the column, raises the column's occupied-cell count by exactly one and leaves
every other cell of the board unchanged. -/
theorem PlaceDisk_nonfull_column (g : Game) (column : Fin BOARD_WIDTH)
    (hempty : ∃ row, g.board row column = EMPTY)
    (hplayer : g.currentPlayer = PLAYER1 ∨ g.currentPlayer = PLAYER2) :
    (PlaceDisk column g).1 = true ∧
      ∃ row, IsLowestEmpty g.board column row ∧
        (PlaceDisk column g).2.board row column = g.currentPlayer ∧
        (∀ r c, ¬ (r = row ∧ c = column) → (PlaceDisk column g).2.board r c = g.board r c) ∧
        occupiedCount (PlaceDisk column g).2.board column =
          occupiedCount g.board column + 1 := by
  obtain ⟨row0, h0⟩ := hempty
  obtain ⟨row, hfind⟩ := find_of_hasEmpty g.board column row0 h0
  have hlow := find_isLowestEmpty g.board column row hfind
  rw [placeDisk_some column g row hfind]
  refine ⟨rfl, row, hlow, setCell_same _ _ _ _, ?_, ?_⟩
  · intro r c hrc
    exact setCell_other _ _ _ _ _ _ hrc
  · apply occupiedCount_setCell _ _ _ _ hlow.1
    rcases hplayer with h | h <;> rw [h] <;> decide

/-- C2 at the first move of a game: column 3 of the initial board. -/
theorem PlaceDisk_nonfull_column_witness :
    (∃ row, initialGame.board row 3 = EMPTY) ∧
      (initialGame.currentPlayer = PLAYER1 ∨ initialGame.currentPlayer = PLAYER2) ∧
      (PlaceDisk 3 initialGame).1 = true ∧
      ∃ row, IsLowestEmpty initialGame.board 3 row ∧
        (PlaceDisk 3 initialGame).2.board row 3 = initialGame.currentPlayer ∧
        (∀ r c, ¬ (r = row ∧ c = 3) → (PlaceDisk 3 initialGame).2.board r c =
          initialGame.board r c) ∧
        occupiedCount (PlaceDisk 3 initialGame).2.board 3 =
          occupiedCount initialGame.board 3 + 1 :=
  ⟨⟨0, rfl⟩, Or.inl rfl, PlaceDisk_nonfull_column initialGame 3 ⟨0, rfl⟩ (Or.inl rfl)⟩

/-- C3: on a column with no `EMPTY` cell, `PlaceDisk` returns failure and leaves the
board and the active player as they were (with the other game variables). -/
theorem PlaceDisk_full_column (g : Game) (column : Fin BOARD_WIDTH)
    (hfull : ∀ row, g.board row column ≠ EMPTY) :
    (PlaceDisk column g).1 = false ∧
      (PlaceDisk column g).2.board = g.board ∧
      (PlaceDisk column g).2.currentPlayer = g.currentPlayer ∧
      (PlaceDisk column g).2.winningPlayer = g.winningPlayer ∧
      (PlaceDisk column g).2.gameOverTimer = g.gameOverTimer ∧
      (PlaceDisk column g).2.gameState = g.gameState ∧
      (PlaceDisk column g).2.isComputerMode = g.isComputerMode := by
  rw [placeDisk_none column g (find_of_full g.board column hfull)]
  exact ⟨rfl, rfl, rfl, rfl, rfl, rfl, rfl⟩

/-- C3 on column 0 of a full board. -/
theorem PlaceDisk_full_column_witness :
    (∀ row, (playingOn fullBoard false PLAYER1).board row 0 ≠ EMPTY) ∧
      (PlaceDisk 0 (playingOn fullBoard false PLAYER1)).1 = false ∧
      (PlaceDisk 0 (playingOn fullBoard false PLAYER1)).2.board = fullBoard ∧
      (PlaceDisk 0 (playingOn fullBoard false PLAYER1)).2.currentPlayer = PLAYER1 :=
  ⟨by decide,
    (PlaceDisk_full_column (playingOn fullBoard false PLAYER1) 0 (by decide)).1,
    (PlaceDisk_full_column (playingOn fullBoard false PLAYER1) 0 (by decide)).2.1,
    (PlaceDisk_full_column (playingOn fullBoard false PLAYER1) 0 (by decide)).2.2.1⟩

/-! ## The probes of the computer opponent -/

theorem setCell_undo (board : Board) (row : Fin BOARD_HEIGHT) (column : Fin BOARD_WIDTH)
    (value : CellState) (he : board row column = EMPTY) :
    setCell (setCell board row column value) row column EMPTY = board := by
  funext r c
  unfold setCell
  by_cases h : r = row ∧ c = column
  · rw [if_pos h, h.1, h.2, he]
  · rw [if_neg h, if_neg h]

theorem checkWinningMove_some (player : CellState) (column : Fin BOARD_WIDTH) (board : Board)
    (row : Fin BOARD_HEIGHT)
    (h : rowsBottomUp.find? (fun row => board row column == EMPTY) = some row) :
    CheckWinningMove player column board =
      (CheckWin (setCell board row column player), board) := by
  have he : board row column = EMPTY := (find_isLowestEmpty board column row h).1
  unfold CheckWinningMove
  simp only [h, setCell_undo board row column player he]

theorem checkWinningMove_none (player : CellState) (column : Fin BOARD_WIDTH) (board : Board)
    (h : rowsBottomUp.find? (fun row => board row column == EMPTY) = none) :
    CheckWinningMove player column board = (false, board) := by
  unfold CheckWinningMove
  simp only [h]

theorem checkWinningMove_board (player : CellState) (column : Fin BOARD_WIDTH)
    (board : Board) : (CheckWinningMove player column board).2 = board := by
  cases h : rowsBottomUp.find? (fun row => board row column == EMPTY) with
  | some row => rw [checkWinningMove_some player column board row h]
  | none => rw [checkWinningMove_none player column board h]

theorem firstWinningColumn_board (player : CellState) (cols : List (Fin BOARD_WIDTH))
    (board : Board) : (firstWinningColumn player cols board).2 = board := by
  induction cols generalizing board with
  | nil => rfl
  | cons col rest ih =>
    unfold firstWinningColumn
    simp only
    split
    · exact checkWinningMove_board player col board
    · rw [ih, checkWinningMove_board]

theorem getBestMove_board (rand : Nat) (board : Board) :
    (GetBestMove rand board).2 = board := by
  have h2 := firstWinningColumn_board PLAYER2 (List.finRange BOARD_WIDTH) board
  unfold GetBestMove
  split
  · rename_i col board1 heq
    rw [heq] at h2
    exact h2
  · rename_i board1 heq
    rw [heq] at h2
    simp only at h2
    subst h2
    have h1 := firstWinningColumn_board PLAYER1 (List.finRange BOARD_WIDTH) board1
    split
    · rename_i col board2 heq1
      rw [heq1] at h1
      exact h1
    · rename_i board2 heq1
      rw [heq1] at h1
      exact h1

/-- C6: the board after `CheckWinningMove` is the board before the call, whatever the
probe returns, and so is the board after `GetBestMove`, for every random draw. -/
theorem CheckWinningMove_restores_board (board : Board) :
    (∀ (player : CellState) (column : Fin BOARD_WIDTH) (row : Fin BOARD_HEIGHT)
        (col : Fin BOARD_WIDTH),
        (CheckWinningMove player column board).2 row col = board row col) ∧
      (∀ (rand : Nat) (row : Fin BOARD_HEIGHT) (col : Fin BOARD_WIDTH),
        (GetBestMove rand board).2 row col = board row col) :=
  ⟨fun player column row col => by rw [checkWinningMove_board],
   fun rand row col => by rw [getBestMove_board]⟩

theorem firstWinningColumn_full (player : CellState) (cols : List (Fin BOARD_WIDTH))
    (board : Board) (hfull : ∀ row col, board row col ≠ EMPTY) :
    firstWinningColumn player cols board = (none, board) := by
  induction cols with
  | nil => rfl
  | cons col rest ih =>
    unfold firstWinningColumn
    simp only
    rw [checkWinningMove_none player col board (find_of_full board col (fun row => hfull row col))]
    simpa using ih

theorem getRandomValidColumn_none (rand : Nat) (board : Board)
    (htop : ∀ col, board 0 col ≠ EMPTY) : GetRandomValidColumn rand board = none := by
  have hnil : ((List.finRange BOARD_WIDTH).filter fun col => board 0 col == EMPTY) = [] := by
    rw [List.filter_eq_nil_iff]
    intro col _
    simp [htop col]
  unfold GetRandomValidColumn
  simp only [hnil, List.length_nil, gt_iff_lt, lt_self_iff_false, dite_false]

theorem getBestMove_full (rand : Nat) (board : Board)
    (hfull : ∀ row col, board row col ≠ EMPTY) : GetBestMove rand board = (none, board) := by
  unfold GetBestMove
  rw [firstWinningColumn_full PLAYER2 _ board hfull]
  simp only
  rw [firstWinningColumn_full PLAYER1 _ board hfull]
  simp only
  rw [getRandomValidColumn_none rand board (fun col => hfull 0 col)]

/-- C7: on a full board (the claim adds: with no four-in-a-row, which is not needed)
`GetBestMove` returns the no-column signal for every random draw, and `ComputerMove`
then places nothing: it leaves every game variable, the board included, as it was and
plays no sound. -/
theorem GetBestMove_full_board (board : Board) (rand : Nat)
    (hfull : ∀ row col, board row col ≠ EMPTY) :
    (GetBestMove rand board).1 = none ∧
      ∀ g : Game, g.board = board → ComputerMove rand g = g := by
  refine ⟨by rw [getBestMove_full rand board hfull], ?_⟩
  intro g hg
  subst hg
  unfold ComputerMove
  simp only [getBestMove_full rand g.board hfull]

/-- C7 on a full board without a four-in-a-row, with PlayerTwo to move. -/
theorem GetBestMove_full_board_witness :
    (∀ row col, fullBoard row col ≠ EMPTY) ∧ ¬ FourInARow fullBoard ∧
      (GetBestMove 5 fullBoard).1 = none ∧
      ComputerMove 5 (playingOn fullBoard true PLAYER2) = playingOn fullBoard true PLAYER2 :=
  ⟨by decide, fun h => absurd ((checkWin_iff fullBoard).mpr h) (by decide),
    (GetBestMove_full_board fullBoard 5 (by decide)).1,
    (GetBestMove_full_board fullBoard 5 (by decide)).2 _ rfl⟩

theorem cellAt_setCell (board : Board) (row : Fin BOARD_HEIGHT) (column : Fin BOARD_WIDTH)
    (value : CellState) (r c : Int) :
    cellAt (setCell board row column value) r c =
      if r = row.val ∧ c = column.val then some value else cellAt board r c := by
  by_cases hb : 0 ≤ r ∧ r < BOARD_HEIGHT ∧ 0 ≤ c ∧ c < BOARD_WIDTH
  · have e1 := cellAt_eq (setCell board row column value) r c ⟨r.toNat, by omega⟩
      ⟨c.toNat, by omega⟩ (by simp; omega) (by simp; omega)
    have e2 := cellAt_eq board r c ⟨r.toNat, by omega⟩
      ⟨c.toNat, by omega⟩ (by simp; omega) (by simp; omega)
    rw [e1, e2]
    by_cases h : r = row.val ∧ c = column.val
    · rw [if_pos h]
      have h1 : (⟨r.toNat, by omega⟩ : Fin BOARD_HEIGHT) = row := Fin.ext (by simp; omega)
      have h2 : (⟨c.toNat, by omega⟩ : Fin BOARD_WIDTH) = column := Fin.ext (by simp; omega)
      rw [h1, h2, setCell_same]
    · rw [if_neg h, setCell_other]
      intro h'
      apply h
      have h1 := congrArg Fin.val h'.1
      have h2 := congrArg Fin.val h'.2
      simp only at h1 h2
      omega
  · have hne : ¬ (r = row.val ∧ c = column.val) := by
      have := row.isLt
      have := column.isLt
      omega
    rw [if_neg hne]
    unfold cellAt
    rw [dif_neg hb, dif_neg hb]

theorem lineOf_setCell (board : Board) (row : Fin BOARD_HEIGHT) (column : Fin BOARD_WIDTH)
    (value player : CellState) (hline : LineOf (setCell board row column value) player) :
    player = value ∨ LineOf board player := by
  obtain ⟨r, c, d, hd, hk⟩ := hline
  by_cases hex : ∃ k : Int, 0 ≤ k ∧ k < 4 ∧ r + k * d.1 = row.val ∧ c + k * d.2 = column.val
  · obtain ⟨k, hk0, hk4, hr, hc⟩ := hex
    have := hk k hk0 hk4
    rw [cellAt_setCell, if_pos ⟨hr, hc⟩] at this
    left
    exact (Option.some.inj this).symm
  · right
    refine ⟨r, c, d, hd, ?_⟩
    intro k hk0 hk4
    have := hk k hk0 hk4
    rw [cellAt_setCell, if_neg (fun h => hex ⟨k, hk0, hk4, h.1, h.2⟩)] at this
    exact this

theorem isLowestEmpty_unique (board : Board) (column : Fin BOARD_WIDTH)
    (row row' : Fin BOARD_HEIGHT) (h : IsLowestEmpty board column row)
    (h' : IsLowestEmpty board column row') : row = row' :=
  le_antisymm (h'.2 row h.1) (h.2 row' h'.1)

theorem checkWinningMove_iff (board : Board) (player : CellState) (column : Fin BOARD_WIDTH)
    (hplayer : player ≠ EMPTY) (hnowin : ¬ FourInARow board) :
    (CheckWinningMove player column board).1 = true ↔ WinsByPlacing board player column := by
  constructor
  · intro h
    cases hf : rowsBottomUp.find? (fun row => board row column == EMPTY) with
    | none =>
      rw [checkWinningMove_none player column board hf] at h
      exact absurd h (by simp)
    | some row =>
      rw [checkWinningMove_some player column board row hf] at h
      refine ⟨row, find_isLowestEmpty board column row hf, ?_⟩
      obtain ⟨q, hq, hline⟩ := (checkWin_iff _).mp h
      rcases lineOf_setCell board row column player q hline with e | hl
      · subst e; exact hline
      · exact absurd ⟨q, hq, hl⟩ hnowin
  · rintro ⟨row, hlow, hline⟩
    obtain ⟨row', hf⟩ := find_of_hasEmpty board column row hlow.1
    have e := isLowestEmpty_unique board column row' row
      (find_isLowestEmpty board column row' hf) hlow
    subst e
    rw [checkWinningMove_some player column board row' hf]
    exact (checkWin_iff _).mpr ⟨player, hplayer, hline⟩

theorem getBestMove_of_player2 (rand : Nat) (board : Board) (col : Fin BOARD_WIDTH)
    (h : (firstWinningColumn PLAYER2 (List.finRange BOARD_WIDTH) board).1 = some col) :
    (GetBestMove rand board).1 = some col := by
  unfold GetBestMove
  split
  · rename_i col' board1 heq
    rw [heq] at h
    exact h
  · rename_i board1 heq
    rw [heq] at h
    exact absurd h (by simp)

/-! ## Frame conditions and the gravity invariant -/

theorem placeDisk_frame (column : Fin BOARD_WIDTH) (g : Game) :
    (PlaceDisk column g).2.currentPlayer = g.currentPlayer ∧
      (PlaceDisk column g).2.winningPlayer = g.winningPlayer ∧
      (PlaceDisk column g).2.gameOverTimer = g.gameOverTimer ∧
      (PlaceDisk column g).2.gameState = g.gameState ∧
      (PlaceDisk column g).2.isComputerMode = g.isComputerMode := by
  cases h : rowsBottomUp.find? (fun row => g.board row column == EMPTY) with
  | some row => rw [placeDisk_some column g row h]; exact ⟨rfl, rfl, rfl, rfl, rfl⟩
  | none => rw [placeDisk_none column g h]; exact ⟨rfl, rfl, rfl, rfl, rfl⟩

theorem computerMove_frame (rand : Nat) (g : Game) :
    (ComputerMove rand g).currentPlayer = g.currentPlayer ∧
      (ComputerMove rand g).winningPlayer = g.winningPlayer ∧
      (ComputerMove rand g).gameOverTimer = g.gameOverTimer ∧
      (ComputerMove rand g).gameState = g.gameState ∧
      (ComputerMove rand g).isComputerMode = g.isComputerMode := by
  unfold ComputerMove
  simp only
  split
  · rename_i column _
    exact placeDisk_frame column _
  · exact ⟨rfl, rfl, rfl, rfl, rfl⟩

theorem gravity_setCell (board : Board) (column : Fin BOARD_WIDTH) (row : Fin BOARD_HEIGHT)
    (value : CellState) (hg : Gravity board) (hlow : IsLowestEmpty board column row) :
    Gravity (setCell board row column value) := by
  intro c r r' hocc hlt
  by_cases hc : c = column
  · subst hc
    by_cases hr' : r' = row
    · subst hr'
      by_cases hr : r = r'
      · exact absurd hlt (by rw [hr]; exact lt_irrefl _)
      · rw [setCell_other board r' r c c value (fun h => hr h.1)] at hocc
        exact absurd hlow.1 (hg c r r' hocc hlt)
    · rw [setCell_other board row r' c c value (fun h => hr' h.1)]
      by_cases hr : r = row
      · subst hr
        intro he
        exact absurd (hlow.2 r' he) (not_le.mpr hlt)
      · rw [setCell_other board row r c c value (fun h => hr h.1)] at hocc
        exact hg c r r' hocc hlt
  · rw [setCell_other board row r' column c value (fun h => hc h.2)]
    rw [setCell_other board row r column c value (fun h => hc h.2)] at hocc
    exact hg c r r' hocc hlt

theorem placeDisk_gravity (column : Fin BOARD_WIDTH) (g : Game) (hg : Gravity g.board) :
    Gravity (PlaceDisk column g).2.board := by
  cases h : rowsBottomUp.find? (fun row => g.board row column == EMPTY) with
  | some row =>
    rw [placeDisk_some column g row h]
    exact gravity_setCell g.board column row _ hg (find_isLowestEmpty g.board column row h)
  | none => rw [placeDisk_none column g h]; exact hg

theorem computerMove_gravity (rand : Nat) (g : Game) (hg : Gravity g.board) :
    Gravity (ComputerMove rand g).board := by
  have hb : (GetBestMove rand g.board).2 = g.board := getBestMove_board rand g.board
  unfold ComputerMove
  simp only
  split
  · rename_i column _
    apply placeDisk_gravity
    simp only [hb]
    exact hg
  · simp only [hb]
    exact hg

theorem afterPlacement_win (rand : Nat) (g : Game) (h : CheckWin g.board = true) :
    afterPlacement rand g =
      { g with winningPlayer := g.currentPlayer, gameState := GAME_OVER,
               gameOverTimer := GAME_OVER_DELAY } := by
  unfold afterPlacement
  rw [if_pos h]

theorem afterPlacement_pass (rand : Nat) (g : Game) (h : CheckWin g.board = false)
    (h2 : g.isComputerMode = false ∨ g.currentPlayer ≠ PLAYER1) :
    afterPlacement rand g =
      { g with currentPlayer := if g.currentPlayer = PLAYER1 then PLAYER2 else PLAYER1 } := by
  unfold afterPlacement
  rw [if_neg (by simp [h])]
  simp only
  rw [if_neg]
  rcases h2 with h2 | h2
  · simp [h2]
  · simp [h2]

theorem afterPlacement_computer (rand : Nat) (g : Game) (h : CheckWin g.board = false)
    (hm : g.isComputerMode = true) (hp : g.currentPlayer = PLAYER1) :
    afterPlacement rand g =
      if CheckWin (ComputerMove rand { g with currentPlayer := PLAYER2 }).board then
        { ComputerMove rand { g with currentPlayer := PLAYER2 } with
            winningPlayer := (ComputerMove rand { g with currentPlayer := PLAYER2 }).currentPlayer,
            gameState := GAME_OVER, gameOverTimer := GAME_OVER_DELAY }
      else { ComputerMove rand { g with currentPlayer := PLAYER2 } with
               currentPlayer := PLAYER1 } := by
  unfold afterPlacement
  rw [if_neg (by simp [h])]
  simp only [hp, if_true]
  rw [if_pos (by simp [hm])]

theorem afterPlacement_gravity (rand : Nat) (g : Game) (hg : Gravity g.board) :
    Gravity (afterPlacement rand g).board := by
  cases h : CheckWin g.board with
  | true => rw [afterPlacement_win rand g h]; exact hg
  | false =>
    by_cases h2 : g.isComputerMode = false ∨ g.currentPlayer ≠ PLAYER1
    · rw [afterPlacement_pass rand g h h2]; exact hg
    · have hm : g.isComputerMode = true := by
        cases hc : g.isComputerMode with
        | true => rfl
        | false => exact absurd (Or.inl hc) h2
      have hp : g.currentPlayer = PLAYER1 := by
        by_contra hne
        exact h2 (Or.inr hne)
      rw [afterPlacement_computer rand g h hm hp]
      have := computerMove_gravity rand { g with currentPlayer := PLAYER2 } hg
      split
      · exact this
      · exact this

theorem gravity_empty : Gravity (fun _ _ => EMPTY) :=
  fun _ _ _ hocc _ => absurd rfl hocc

theorem updateDrawFrame_title (i : Input) (g : Game) (h : g.gameState = TITLE_SCREEN) :
    UpdateDrawFrame i g = updateTitleScreen i g := by
  unfold UpdateDrawFrame
  rw [h]

theorem updateDrawFrame_play (i : Input) (g : Game) (h : g.gameState = GAME_PLAY) :
    UpdateDrawFrame i g = updateGamePlay i g := by
  unfold UpdateDrawFrame
  rw [h]

theorem updateDrawFrame_over (i : Input) (g : Game) (h : g.gameState = GAME_OVER) :
    UpdateDrawFrame i g = updateGameOver i g := by
  unfold UpdateDrawFrame
  rw [h]

theorem updateTitleScreen_cases (i : Input) (g : Game) :
    updateTitleScreen i g = g ∨
      ∃ (mode : Bool) (sounds : List Sound),
        updateTitleScreen i g =
          { g with played := sounds, isComputerMode := mode, gameState := GAME_PLAY } := by
  unfold updateTitleScreen
  cases h1 : i.keyOne <;> cases h2 : i.keyTwo
  · left; rfl
  · right; exact ⟨false, g.played ++ [Sound.soundStart], rfl⟩
  · right; exact ⟨true, g.played ++ [Sound.soundStart], rfl⟩
  · right; exact ⟨false, (g.played ++ [Sound.soundStart]) ++ [Sound.soundStart], rfl⟩

theorem updateGamePlay_noclick (i : Input) (g : Game) (h : i.mouseLeft = false) :
    updateGamePlay i g = g := by
  unfold updateGamePlay
  simp [h]

theorem updateGamePlay_nocolumn (i : Input) (g : Game)
    (h : GetColumnFromMouse i.mousePos = none) : updateGamePlay i g = g := by
  unfold updateGamePlay
  simp [h]

theorem updateGamePlay_click (i : Input) (g : Game) (column : Fin BOARD_WIDTH)
    (hclick : i.mouseLeft = true) (hcol : GetColumnFromMouse i.mousePos = some column) :
    updateGamePlay i g =
      if (PlaceDisk column g).1 then afterPlacement i.rand (PlaceDisk column g).2
      else (PlaceDisk column g).2 := by
  unfold updateGamePlay clickColumn
  simp only [hclick, hcol, if_true]

theorem updateGameOver_cases (i : Input) (g : Game) :
    (∃ t, updateGameOver i g =
        { ResetBoard { g with gameOverTimer := t } with
            gameState := TITLE_SCREEN, winningPlayer := EMPTY }) ∨
      (∃ t, updateGameOver i g = { g with gameOverTimer := t }) := by
  unfold updateGameOver
  by_cases ht : g.gameOverTimer > 0
  · simp only [ht, if_true]
    by_cases hc : (i.mouseLeft ||
        decide (countdownAfter g.gameOverTimer i.frameTime ≤ 0)) = true
    · left; rw [if_pos hc]; exact ⟨_, rfl⟩
    · right; rw [if_neg hc]; exact ⟨_, rfl⟩
  · simp only [ht, if_false]
    by_cases hc : (i.mouseLeft || decide (g.gameOverTimer ≤ 0)) = true
    · left; rw [if_pos hc]; exact ⟨g.gameOverTimer, rfl⟩
    · right; rw [if_neg hc]; exact ⟨g.gameOverTimer, rfl⟩

theorem updateGamePlay_gravity (i : Input) (g : Game) (hg : Gravity g.board) :
    Gravity (updateGamePlay i g).board := by
  cases hclick : i.mouseLeft with
  | false => rw [updateGamePlay_noclick i g hclick]; exact hg
  | true =>
    cases hcol : GetColumnFromMouse i.mousePos with
    | none => rw [updateGamePlay_nocolumn i g hcol]; exact hg
    | some column =>
      rw [updateGamePlay_click i g column hclick hcol]
      split
      · exact afterPlacement_gravity _ _ (placeDisk_gravity column g hg)
      · exact placeDisk_gravity column g hg

theorem updateDrawFrame_gravity (i : Input) (g : Game) (hg : Gravity g.board) :
    Gravity (UpdateDrawFrame i g).board := by
  cases hs : g.gameState with
  | TITLE_SCREEN =>
    rw [updateDrawFrame_title i g hs]
    rcases updateTitleScreen_cases i g with h | ⟨mode, sounds, h⟩ <;> rw [h] <;> exact hg
  | GAME_PLAY =>
    rw [updateDrawFrame_play i g hs]
    exact updateGamePlay_gravity i g hg
  | GAME_OVER =>
    rw [updateDrawFrame_over i g hs]
    rcases updateGameOver_cases i g with ⟨t, h⟩ | ⟨t, h⟩ <;> rw [h]
    · exact gravity_empty
    · exact hg

theorem reachable_gravity (g : Game) (h : Reachable g) : Gravity g.board := by
  induction h with
  | initial => exact gravity_empty
  | tick i g _ ih => exact updateDrawFrame_gravity i g ih

/-- C4: gravity holds in every state reachable from the initial state by any sequence of
ticks; `ResetBoard` establishes it, and `PlaceDisk`, `CheckWinningMove`, `GetBestMove`
and `ComputerMove` each preserve it. -/
theorem Gravity_invariant :
    (∀ g, Reachable g → Gravity g.board) ∧
      (∀ g, Gravity (ResetBoard g).board) ∧
      (∀ column g, Gravity g.board → Gravity (PlaceDisk column g).2.board) ∧
      (∀ player column board, Gravity board →
        Gravity (CheckWinningMove player column board).2) ∧
      (∀ rand board, Gravity board → Gravity (GetBestMove rand board).2) ∧
      (∀ rand g, Gravity g.board → Gravity (ComputerMove rand g).board) :=
  ⟨reachable_gravity, fun _ => gravity_empty, placeDisk_gravity,
    fun player column board h => by rw [checkWinningMove_board]; exact h,
    fun rand board h => by rw [getBestMove_board]; exact h,
    computerMove_gravity⟩

/-! ## The turn invariant -/

theorem afterPlacement_turnInvariant (rand : Nat) (p : Game) (hs : p.gameState = GAME_PLAY)
    (hw : p.winningPlayer = EMPTY)
    (hc : p.isComputerMode = true → p.currentPlayer = PLAYER1) :
    TurnInvariant (afterPlacement rand p) := by
  cases h : CheckWin p.board with
  | true =>
    rw [afterPlacement_win rand p h]
    exact ⟨fun e => absurd e (by simp), fun e => absurd e (by simp), fun e => absurd rfl e⟩
  | false =>
    by_cases h2 : p.isComputerMode = false ∨ p.currentPlayer ≠ PLAYER1
    · rw [afterPlacement_pass rand p h h2]
      refine ⟨fun e => ?_, fun _ hm => ?_, fun _ => hw⟩
      · simp only [hs] at e
        exact absurd e (by simp)
      · simp only at hm
        rcases h2 with h2 | h2
        · rw [h2] at hm; exact absurd hm (by simp)
        · exact absurd (hc hm) h2
    · have hm : p.isComputerMode = true := by
        cases hc' : p.isComputerMode with
        | true => rfl
        | false => exact absurd (Or.inl hc') h2
      have hp : p.currentPlayer = PLAYER1 := by
        by_contra hne
        exact h2 (Or.inr hne)
      have hf := computerMove_frame rand { p with currentPlayer := PLAYER2 }
      rw [afterPlacement_computer rand p h hm hp]
      split
      · exact ⟨fun e => absurd e (by simp), fun e => absurd e (by simp), fun e => absurd rfl e⟩
      · refine ⟨fun _ => rfl, fun _ _ => rfl, fun _ => ?_⟩
        simp only
        rw [hf.2.1]
        exact hw

theorem updateGamePlay_turnInvariant (i : Input) (g : Game) (hs : g.gameState = GAME_PLAY)
    (hinv : TurnInvariant g) : TurnInvariant (updateGamePlay i g) := by
  cases hclick : i.mouseLeft with
  | false => rw [updateGamePlay_noclick i g hclick]; exact hinv
  | true =>
    cases hcol : GetColumnFromMouse i.mousePos with
    | none => rw [updateGamePlay_nocolumn i g hcol]; exact hinv
    | some column =>
      obtain ⟨f1, f2, -, f4, f5⟩ := placeDisk_frame column g
      have hw : (PlaceDisk column g).2.winningPlayer = EMPTY := by
        rw [f2]; exact hinv.2.2 (by rw [hs]; simp)
      have hc : (PlaceDisk column g).2.isComputerMode = true →
          (PlaceDisk column g).2.currentPlayer = PLAYER1 := by
        rw [f1, f5]; exact hinv.2.1 hs
      rw [updateGamePlay_click i g column hclick hcol]
      split
      · exact afterPlacement_turnInvariant _ _ (by rw [f4]; exact hs) hw hc
      · refine ⟨fun e => ?_, fun _ => hc, fun _ => hw⟩
        rw [f4, hs] at e
        exact absurd e (by simp)

theorem updateDrawFrame_turnInvariant (i : Input) (g : Game) (hinv : TurnInvariant g) :
    TurnInvariant (UpdateDrawFrame i g) := by
  cases hs : g.gameState with
  | TITLE_SCREEN =>
    rw [updateDrawFrame_title i g hs]
    have hw : g.winningPlayer = EMPTY := hinv.2.2 (by rw [hs]; simp)
    rcases updateTitleScreen_cases i g with h | ⟨mode, sounds, h⟩ <;> rw [h]
    · exact hinv
    · exact ⟨fun _ => hinv.1 hs, fun _ _ => hinv.1 hs, fun _ => hw⟩
  | GAME_PLAY =>
    rw [updateDrawFrame_play i g hs]
    exact updateGamePlay_turnInvariant i g hs hinv
  | GAME_OVER =>
    rw [updateDrawFrame_over i g hs]
    rcases updateGameOver_cases i g with ⟨t, h⟩ | ⟨t, h⟩ <;> rw [h]
    · exact ⟨fun _ => rfl, fun _ _ => rfl, fun _ => rfl⟩
    · refine ⟨fun e => ?_, fun e => ?_, fun e => ?_⟩
      · simp only [hs] at e; exact absurd e (by simp)
      · simp only [hs] at e; exact absurd e (by simp)
      · simp only [hs] at e; exact absurd rfl e

theorem reachable_turnInvariant (g : Game) (h : Reachable g) : TurnInvariant g := by
  induction h with
  | initial =>
    exact ⟨fun _ => rfl, fun _ _ => rfl, fun _ => rfl⟩
  | tick i g _ ih => exact updateDrawFrame_turnInvariant i g ih

/-! ## The pointer -/

theorem truncToInt_eq (q : ℚ) (k : Nat) (h1 : (k : ℚ) ≤ q) (h2 : q < (k : ℚ) + 1) :
    truncToInt q = k := by
  have h0 : (0 : ℚ) ≤ q := le_trans (Nat.cast_nonneg k) h1
  unfold truncToInt
  rw [if_pos h0, Int.floor_eq_iff]
  exact ⟨by exact_mod_cast h1, by exact_mod_cast h2⟩

theorem getColumnFromMouse_column (x y : ℚ) (k : Nat) (hk : k < BOARD_WIDTH)
    (hx1 : (CELL_SIZE : ℚ) * k ≤ x) (hx2 : x < (CELL_SIZE : ℚ) * (k + 1))
    (hy : y ≤ BOARD_HEIGHT * CELL_SIZE) : GetColumnFromMouse ⟨x, y⟩ = some ⟨k, hk⟩ := by
  have hc : truncToInt (x / CELL_SIZE) = k := by
    apply truncToInt_eq
    · rw [le_div_iff₀ (by norm_num)]
      linarith
    · rw [div_lt_iff₀ (by norm_num)]
      linarith
  unfold GetColumnFromMouse
  simp only [hc]
  rw [if_neg (not_lt.mpr hy), dif_pos ⟨by omega, by omega⟩]
  simp

theorem getColumnFromMouse_below (x y : ℚ) (hy : y > BOARD_HEIGHT * CELL_SIZE) :
    GetColumnFromMouse ⟨x, y⟩ = none := by
  unfold GetColumnFromMouse
  simp only [hy, if_true]

theorem getColumnFromMouse_280 : GetColumnFromMouse ⟨280, 100⟩ = some 3 :=
  getColumnFromMouse_column 280 100 3 (by decide) (by norm_num) (by norm_num) (by norm_num)

theorem getColumnFromMouse_right (x y : ℚ) (hx : x ≥ BOARD_WIDTH * CELL_SIZE) :
    GetColumnFromMouse ⟨x, y⟩ = none := by
  have h7 : (7 : ℚ) ≤ x / CELL_SIZE := by
    rw [le_div_iff₀ (by norm_num)]
    norm_num at hx ⊢
    linarith
  have hc : (7 : Int) ≤ truncToInt (x / CELL_SIZE) := by
    unfold truncToInt
    rw [if_pos (le_trans (by norm_num) h7), Int.le_floor]
    exact_mod_cast h7
  unfold GetColumnFromMouse
  simp only
  split
  · rfl
  · rw [dif_neg]
    have hw : ((BOARD_WIDTH : Nat) : Int) = 7 := rfl
    omega

/-! ## The frame in play -/

theorem updateDrawFrame_click (i : Input) (g : Game) (column : Fin BOARD_WIDTH)
    (hs : g.gameState = GAME_PLAY) (hclick : i.mouseLeft = true)
    (hcol : GetColumnFromMouse i.mousePos = some column) :
    UpdateDrawFrame i g = clickColumn column i.rand g := by
  rw [updateDrawFrame_play i g hs]
  unfold updateGamePlay
  simp only [hclick, hcol, if_true]

/-- C8: in every state reachable from the initial state by any sequence of ticks, if the
game state is Playing and the mode is computer-opponent then the active player is
PlayerOne: the human is the player awaited by the next click. -/
theorem computer_mode_human_moves_next (g : Game) (hr : Reachable g)
    (hs : g.gameState = GAME_PLAY) (hm : g.isComputerMode = true) :
    g.currentPlayer = PLAYER1 :=
  (reachable_turnInvariant g hr).2.1 hs hm

/-- C8 after a tick in which the computer has answered: the human clicks column 3 of the
empty board, the computer places in column 6 (`rand()` returns 6), and the active player
is toggled to PlayerTwo and back to PlayerOne. -/
theorem computer_mode_human_moves_next_witness :
    Reachable (UpdateDrawFrame (clickAt 280 100 6) (UpdateDrawFrame pressOne initialGame)) ∧
      (UpdateDrawFrame (clickAt 280 100 6)
        (UpdateDrawFrame pressOne initialGame)).gameState = GAME_PLAY ∧
      (UpdateDrawFrame (clickAt 280 100 6)
        (UpdateDrawFrame pressOne initialGame)).isComputerMode = true ∧
      (UpdateDrawFrame (clickAt 280 100 6)
        (UpdateDrawFrame pressOne initialGame)).board 5 3 = PLAYER1 ∧
      (UpdateDrawFrame (clickAt 280 100 6)
        (UpdateDrawFrame pressOne initialGame)).board 5 6 = PLAYER2 ∧
      (UpdateDrawFrame (clickAt 280 100 6)
        (UpdateDrawFrame pressOne initialGame)).currentPlayer = PLAYER1 := by
  have e : UpdateDrawFrame (clickAt 280 100 6) (UpdateDrawFrame pressOne initialGame) =
      clickColumn 3 6 (UpdateDrawFrame pressOne initialGame) :=
    updateDrawFrame_click _ _ 3 rfl rfl getColumnFromMouse_280
  have hr : Reachable
      (UpdateDrawFrame (clickAt 280 100 6) (UpdateDrawFrame pressOne initialGame)) :=
    Reachable.tick _ _ (Reachable.tick pressOne initialGame Reachable.initial)
  have hs : (UpdateDrawFrame (clickAt 280 100 6)
      (UpdateDrawFrame pressOne initialGame)).gameState = GAME_PLAY := by
    rw [e]; decide
  have hm : (UpdateDrawFrame (clickAt 280 100 6)
      (UpdateDrawFrame pressOne initialGame)).isComputerMode = true := by
    rw [e]; decide
  exact ⟨hr, hs, hm, by rw [e]; decide, by rw [e]; decide,
    computer_mode_human_moves_next _ hr hs hm⟩

/-- C9: in a Playing state, on a tick whose click maps to a column with an `EMPTY` cell,
the active player's disk is placed; if the resulting board has a four-in-a-row the game
state becomes GameOver, the winner is the player who placed, the countdown is 1000 and
the active player is not toggled; otherwise, in two-human mode, the active player
toggles, the state stays Playing and no winner is recorded (the winner record is
untouched, and `EMPTY` when the state was reachable). -/
theorem tick_after_valid_click (g : Game) (i : Input) (column : Fin BOARD_WIDTH)
    (hs : g.gameState = GAME_PLAY) (hclick : i.mouseLeft = true)
    (hcol : GetColumnFromMouse i.mousePos = some column)
    (hempty : ∃ row, g.board row column = EMPTY) :
    (FourInARow (PlaceDisk column g).2.board →
        (UpdateDrawFrame i g).gameState = GAME_OVER ∧
        (UpdateDrawFrame i g).winningPlayer = g.currentPlayer ∧
        (UpdateDrawFrame i g).gameOverTimer = 1000 ∧
        (UpdateDrawFrame i g).currentPlayer = g.currentPlayer ∧
        (UpdateDrawFrame i g).board = (PlaceDisk column g).2.board) ∧
      (¬ FourInARow (PlaceDisk column g).2.board → g.isComputerMode = false →
        (g.currentPlayer = PLAYER1 → (UpdateDrawFrame i g).currentPlayer = PLAYER2) ∧
        (g.currentPlayer = PLAYER2 → (UpdateDrawFrame i g).currentPlayer = PLAYER1) ∧
        (UpdateDrawFrame i g).gameState = GAME_PLAY ∧
        (UpdateDrawFrame i g).winningPlayer = g.winningPlayer ∧
        (Reachable g → (UpdateDrawFrame i g).winningPlayer = EMPTY) ∧
        (UpdateDrawFrame i g).board = (PlaceDisk column g).2.board) := by
  obtain ⟨row0, h0⟩ := hempty
  obtain ⟨row, hfind⟩ := find_of_hasEmpty g.board column row0 h0
  have hok : (PlaceDisk column g).1 = true := by rw [placeDisk_some column g row hfind]
  obtain ⟨f1, f2, f3, f4, f5⟩ := placeDisk_frame column g
  rw [updateDrawFrame_play i g hs, updateGamePlay_click i g column hclick hcol, if_pos hok]
  constructor
  · intro hwin
    rw [afterPlacement_win _ _ ((checkWin_iff _).mpr hwin)]
    exact ⟨rfl, f1, rfl, f1, rfl⟩
  · intro hnowin hmode
    have hcw : CheckWin (PlaceDisk column g).2.board = false := by
      cases hc : CheckWin (PlaceDisk column g).2.board with
      | false => rfl
      | true => exact absurd ((checkWin_iff _).mp hc) hnowin
    rw [afterPlacement_pass _ _ hcw (Or.inl (by rw [f5]; exact hmode))]
    refine ⟨fun hp => ?_, fun hp => ?_, f4.trans hs, f2, fun hr => ?_, rfl⟩
    · simp only [f1, hp, if_true]
    · simp only [f1, hp]
      decide
    · simp only [f2]
      exact (reachable_turnInvariant g hr).2.2 (by rw [hs]; simp)

/-- C9 at PlayerOne's first click, on column 3, of a two-human game. -/
theorem tick_after_valid_click_witness :
    (playingOn emptyBoard false PLAYER1).gameState = GAME_PLAY ∧
      (clickAt 280 100 0).mouseLeft = true ∧
      GetColumnFromMouse (clickAt 280 100 0).mousePos = some 3 ∧
      (∃ row, (playingOn emptyBoard false PLAYER1).board row 3 = EMPTY) ∧
      (UpdateDrawFrame (clickAt 280 100 0) (playingOn emptyBoard false PLAYER1)).currentPlayer =
        PLAYER2 ∧
      (UpdateDrawFrame (clickAt 280 100 0) (playingOn emptyBoard false PLAYER1)).gameState =
        GAME_PLAY :=
  ⟨rfl, rfl, getColumnFromMouse_280, ⟨0, rfl⟩,
    ((tick_after_valid_click (playingOn emptyBoard false PLAYER1) (clickAt 280 100 0) 3 rfl rfl
      getColumnFromMouse_280 ⟨0, rfl⟩).2
      (fun h => absurd ((checkWin_iff _).mpr h) (by decide)) rfl).1 rfl,
    ((tick_after_valid_click (playingOn emptyBoard false PLAYER1) (clickAt 280 100 0) 3 rfl rfl
      getColumnFromMouse_280 ⟨0, rfl⟩).2
      (fun h => absurd ((checkWin_iff _).mpr h) (by decide)) rfl).2.2.1⟩

theorem updateDrawFrame_invalid_move (g : Game) (i : Input) (hs : g.gameState = GAME_PLAY)
    (hmove : i.mouseLeft = false ∨ GetColumnFromMouse i.mousePos = none ∨
      i.mousePos.y > BOARD_HEIGHT * CELL_SIZE ∨ i.mousePos.x ≥ BOARD_WIDTH * CELL_SIZE ∨
      ∃ column, GetColumnFromMouse i.mousePos = some column ∧
        ∀ row, g.board row column ≠ EMPTY) :
    (UpdateDrawFrame i g).board = g.board ∧
      (UpdateDrawFrame i g).currentPlayer = g.currentPlayer ∧
      (UpdateDrawFrame i g).gameState = g.gameState ∧
      (UpdateDrawFrame i g).winningPlayer = g.winningPlayer ∧
      (UpdateDrawFrame i g).gameOverTimer = g.gameOverTimer ∧
      (UpdateDrawFrame i g).isComputerMode = g.isComputerMode := by
  rw [updateDrawFrame_play i g hs]
  rcases hmove with h | h | h | h | ⟨column, hcol, hfull⟩
  · rw [updateGamePlay_noclick i g h]
    exact ⟨rfl, rfl, rfl, rfl, rfl, rfl⟩
  · rw [updateGamePlay_nocolumn i g h]
    exact ⟨rfl, rfl, rfl, rfl, rfl, rfl⟩
  · rw [updateGamePlay_nocolumn i g (getColumnFromMouse_below _ _ h)]
    exact ⟨rfl, rfl, rfl, rfl, rfl, rfl⟩
  · rw [updateGamePlay_nocolumn i g (getColumnFromMouse_right _ _ h)]
    exact ⟨rfl, rfl, rfl, rfl, rfl, rfl⟩
  · cases hclick : i.mouseLeft with
    | false =>
      rw [updateGamePlay_noclick i g hclick]
      exact ⟨rfl, rfl, rfl, rfl, rfl, rfl⟩
    | true =>
      have hnone := find_of_full g.board column hfull
      rw [updateGamePlay_click i g column hclick hcol, placeDisk_none column g hnone]
      rw [if_neg (by simp)]
      exact ⟨rfl, rfl, rfl, rfl, rfl, rfl⟩

/-! ## A game against the computer that reaches `blockBoard` -/

theorem reachable_clickColumn (g : Game) (hr : Reachable g) (hs : g.gameState = GAME_PLAY)
    (k : Nat) (hk : k < BOARD_WIDTH) (rand : Nat) : Reachable (clickColumn ⟨k, hk⟩ rand g) := by
  have hcol : GetColumnFromMouse (clickAt ((CELL_SIZE : ℚ) * k) 0 rand).mousePos
      = some ⟨k, hk⟩ :=
    getColumnFromMouse_column _ _ k hk (le_refl _) (by norm_num) (by norm_num)
  have hstep : UpdateDrawFrame (clickAt ((CELL_SIZE : ℚ) * k) 0 rand) g
      = clickColumn ⟨k, hk⟩ rand g := by
    rw [updateDrawFrame_play _ g hs]
    unfold updateGamePlay
    simp only [hcol]
    rfl
  rw [← hstep]
  exact Reachable.tick _ g hr

theorem blockRun_step1 :
    clickColumn 0 6 (computerGame emptyBoard 0) =
      computerGame (boardOfRows
        [[EMPTY, EMPTY, EMPTY, EMPTY, EMPTY, EMPTY, EMPTY],
         [EMPTY, EMPTY, EMPTY, EMPTY, EMPTY, EMPTY, EMPTY],
         [EMPTY, EMPTY, EMPTY, EMPTY, EMPTY, EMPTY, EMPTY],
         [EMPTY, EMPTY, EMPTY, EMPTY, EMPTY, EMPTY, EMPTY],
         [EMPTY, EMPTY, EMPTY, EMPTY, EMPTY, EMPTY, EMPTY],
         [PLAYER1, EMPTY, EMPTY, EMPTY, EMPTY, EMPTY, PLAYER2]]) 1 := by
  apply Game.ext
  · funext r c; revert r c; decide
  all_goals decide

theorem blockRun_step2 :
    clickColumn 0 6 (computerGame (boardOfRows
        [[EMPTY, EMPTY, EMPTY, EMPTY, EMPTY, EMPTY, EMPTY],
         [EMPTY, EMPTY, EMPTY, EMPTY, EMPTY, EMPTY, EMPTY],
         [EMPTY, EMPTY, EMPTY, EMPTY, EMPTY, EMPTY, EMPTY],
         [EMPTY, EMPTY, EMPTY, EMPTY, EMPTY, EMPTY, EMPTY],
         [EMPTY, EMPTY, EMPTY, EMPTY, EMPTY, EMPTY, EMPTY],
         [PLAYER1, EMPTY, EMPTY, EMPTY, EMPTY, EMPTY, PLAYER2]]) 1) =
      computerGame (boardOfRows
        [[EMPTY, EMPTY, EMPTY, EMPTY, EMPTY, EMPTY, EMPTY],
         [EMPTY, EMPTY, EMPTY, EMPTY, EMPTY, EMPTY, EMPTY],
         [EMPTY, EMPTY, EMPTY, EMPTY, EMPTY, EMPTY, EMPTY],
         [EMPTY, EMPTY, EMPTY, EMPTY, EMPTY, EMPTY, EMPTY],
         [PLAYER1, EMPTY, EMPTY, EMPTY, EMPTY, EMPTY, PLAYER2],
         [PLAYER1, EMPTY, EMPTY, EMPTY, EMPTY, EMPTY, PLAYER2]]) 2 := by
  apply Game.ext
  · funext r c; revert r c; decide
  all_goals decide

theorem blockRun_step3 :
    clickColumn 0 6 (computerGame (boardOfRows
        [[EMPTY, EMPTY, EMPTY, EMPTY, EMPTY, EMPTY, EMPTY],
         [EMPTY, EMPTY, EMPTY, EMPTY, EMPTY, EMPTY, EMPTY],
         [EMPTY, EMPTY, EMPTY, EMPTY, EMPTY, EMPTY, EMPTY],
         [EMPTY, EMPTY, EMPTY, EMPTY, EMPTY, EMPTY, EMPTY],
         [PLAYER1, EMPTY, EMPTY, EMPTY, EMPTY, EMPTY, PLAYER2],
         [PLAYER1, EMPTY, EMPTY, EMPTY, EMPTY, EMPTY, PLAYER2]]) 2) =
      computerGame (boardOfRows
        [[EMPTY, EMPTY, EMPTY, EMPTY, EMPTY, EMPTY, EMPTY],
         [EMPTY, EMPTY, EMPTY, EMPTY, EMPTY, EMPTY, EMPTY],
         [PLAYER2, EMPTY, EMPTY, EMPTY, EMPTY, EMPTY, EMPTY],
         [PLAYER1, EMPTY, EMPTY, EMPTY, EMPTY, EMPTY, EMPTY],
         [PLAYER1, EMPTY, EMPTY, EMPTY, EMPTY, EMPTY, PLAYER2],
         [PLAYER1, EMPTY, EMPTY, EMPTY, EMPTY, EMPTY, PLAYER2]]) 3 := by
  apply Game.ext
  · funext r c; revert r c; decide
  all_goals decide

theorem blockRun_step4 :
    clickColumn 1 6 (computerGame (boardOfRows
        [[EMPTY, EMPTY, EMPTY, EMPTY, EMPTY, EMPTY, EMPTY],
         [EMPTY, EMPTY, EMPTY, EMPTY, EMPTY, EMPTY, EMPTY],
         [PLAYER2, EMPTY, EMPTY, EMPTY, EMPTY, EMPTY, EMPTY],
         [PLAYER1, EMPTY, EMPTY, EMPTY, EMPTY, EMPTY, EMPTY],
         [PLAYER1, EMPTY, EMPTY, EMPTY, EMPTY, EMPTY, PLAYER2],
         [PLAYER1, EMPTY, EMPTY, EMPTY, EMPTY, EMPTY, PLAYER2]]) 3) =
      computerGame beforeBlockBoard 4 := by
  apply Game.ext
  · funext r c; revert r c; decide
  all_goals decide

theorem reachable_beforeBlockBoard : Reachable (computerGame beforeBlockBoard 4) := by
  have h0 : Reachable (computerGame emptyBoard 0) :=
    Reachable.tick pressOne initialGame Reachable.initial
  have h1 := reachable_clickColumn _ h0 rfl 0 (by decide) 6
  rw [show (⟨0, by decide⟩ : Fin BOARD_WIDTH) = 0 from rfl, blockRun_step1] at h1
  have h2 := reachable_clickColumn _ h1 rfl 0 (by decide) 6
  rw [show (⟨0, by decide⟩ : Fin BOARD_WIDTH) = 0 from rfl, blockRun_step2] at h2
  have h3 := reachable_clickColumn _ h2 rfl 0 (by decide) 6
  rw [show (⟨0, by decide⟩ : Fin BOARD_WIDTH) = 0 from rfl, blockRun_step3] at h3
  have h4 := reachable_clickColumn _ h3 rfl 1 (by decide) 6
  rw [show (⟨1, by decide⟩ : Fin BOARD_WIDTH) = 1 from rfl, blockRun_step4] at h4
  exact h4

theorem placeDisk_beforeBlockBoard :
    (PlaceDisk 2 (computerGame beforeBlockBoard 4)).1 = true ∧
      (PlaceDisk 2 (computerGame beforeBlockBoard 4)).2.board = blockBoard := by
  refine ⟨by decide, ?_⟩
  funext r c
  revert r c
  decide

/-- C5 (the code at the failing input): `blockBoard` is the board on which `GetBestMove`
is called in a game against the computer, after the human's click on column 2 in a
reachable state. It has no four-in-a-row, PlayerOne completes a four-in-a-row by placing
in column 3 and in no other column, yet `GetBestMove` returns column 6, where PlayerTwo
completes its own, for every random draw. -/
theorem GetBestMove_own_win_before_block :
    Reachable (computerGame beforeBlockBoard 4) ∧
      (PlaceDisk 2 (computerGame beforeBlockBoard 4)).1 = true ∧
      (PlaceDisk 2 (computerGame beforeBlockBoard 4)).2.board = blockBoard ∧
      ¬ FourInARow blockBoard ∧ WinsByPlacing blockBoard PLAYER1 3 ∧
      (∀ column, WinsByPlacing blockBoard PLAYER1 column → column = 3) ∧
      WinsByPlacing blockBoard PLAYER2 6 ∧
      ∀ rand, (GetBestMove rand blockBoard).1 = some 6 := by
  have hnowin : ¬ FourInARow blockBoard :=
    fun h => absurd ((checkWin_iff blockBoard).mpr h) (by decide)
  refine ⟨reachable_beforeBlockBoard, placeDisk_beforeBlockBoard.1,
    placeDisk_beforeBlockBoard.2, hnowin, ?_, ?_, ?_, ?_⟩
  · exact (checkWinningMove_iff blockBoard PLAYER1 3 (by decide) hnowin).mp (by decide)
  · intro column h
    have h' := (checkWinningMove_iff blockBoard PLAYER1 column (by decide) hnowin).mpr h
    have hall : ∀ c : Fin BOARD_WIDTH,
        (CheckWinningMove PLAYER1 c blockBoard).1 = true → c = 3 := by decide
    exact hall column h'
  · exact (checkWinningMove_iff blockBoard PLAYER2 6 (by decide) hnowin).mp (by decide)
  · intro rand
    exact getBestMove_of_player2 rand blockBoard 6 (by decide)

/-- C4 in a state reached after four clicks of a game against the computer. -/
theorem Gravity_invariant_witness :
    Reachable (computerGame beforeBlockBoard 4) ∧
      Gravity (computerGame beforeBlockBoard 4).board ∧
      Gravity (PlaceDisk 2 (computerGame beforeBlockBoard 4)).2.board :=
  ⟨reachable_beforeBlockBoard,
    Gravity_invariant.1 (computerGame beforeBlockBoard 4) reachable_beforeBlockBoard,
    Gravity_invariant.2.2.1 2 (computerGame beforeBlockBoard 4)
      (Gravity_invariant.1 (computerGame beforeBlockBoard 4) reachable_beforeBlockBoard)⟩

/-! ## Reset -/

/-- C17: after `ResetBoard` every cell is `EMPTY` and PlayerOne is the active player;
the game state, the winner, the countdown and the mode are untouched; and `ResetBoard`
is idempotent. -/
theorem ResetBoard_idempotent (g : Game) :
    (∀ row col, (ResetBoard g).board row col = EMPTY) ∧
      (ResetBoard g).currentPlayer = PLAYER1 ∧
      (ResetBoard g).gameState = g.gameState ∧
      (ResetBoard g).winningPlayer = g.winningPlayer ∧
      (ResetBoard g).gameOverTimer = g.gameOverTimer ∧
      (ResetBoard g).isComputerMode = g.isComputerMode ∧
      ResetBoard (ResetBoard g) = ResetBoard g :=
  ⟨fun _ _ => rfl, rfl, rfl, rfl, rfl, rfl, rfl⟩

/-! ## The pointer against the specification -/

theorem truncToInt_of_nonneg (q : ℚ) (h : 0 ≤ q) : truncToInt q = ⌊q⌋ := by
  unfold truncToInt
  rw [if_pos h]

theorem truncToInt_of_neg (q : ℚ) (h : q < 0) : truncToInt q = ⌈q⌉ := by
  unfold truncToInt
  rw [if_neg (not_le.mpr h)]

theorem getColumnFromMouse_of_floor (p : Vector2)
    (h : truncToInt (p.x / CELL_SIZE) = ⌊p.x / CELL_SIZE⌋) :
    GetColumnFromMouse p = columnBySpec p := by
  unfold GetColumnFromMouse columnBySpec
  simp only [h]
  by_cases hy : p.y > BOARD_HEIGHT * CELL_SIZE
  · rw [if_pos hy, dif_neg (fun hc => absurd hc.1 (not_le.mpr hy))]
  · rw [if_neg hy]
    by_cases hc : ⌊p.x / CELL_SIZE⌋ ≥ 0 ∧ ⌊p.x / CELL_SIZE⌋ < BOARD_WIDTH
    · rw [dif_pos hc, dif_pos ⟨not_lt.mp hy, hc.1, hc.2⟩]
    · rw [dif_neg hc, dif_neg (fun h' => hc ⟨h'.2.1, h'.2.2⟩)]

theorem getColumnFromMouse_far_left (p : Vector2) (hx : p.x ≤ -(CELL_SIZE : ℚ)) :
    GetColumnFromMouse p = none ∧ columnBySpec p = none := by
  have hq : p.x / CELL_SIZE ≤ -1 := by
    rw [div_le_iff₀ (by norm_num)]
    linarith
  have hceil : ⌈p.x / CELL_SIZE⌉ ≤ -1 := by
    rw [Int.ceil_le]
    exact_mod_cast hq
  have hfloor : ⌊p.x / CELL_SIZE⌋ ≤ -1 := le_trans (Int.floor_le_ceil _) hceil
  constructor
  · unfold GetColumnFromMouse
    simp only [truncToInt_of_neg _ (lt_of_le_of_lt hq (by norm_num))]
    split
    · rfl
    · rw [dif_neg]
      omega
  · unfold columnBySpec
    rw [dif_neg]
    omega

theorem getColumnFromMouse_near_left (p : Vector2) (h1 : -(CELL_SIZE : ℚ) < p.x)
    (h2 : p.x < 0) (hy : p.y ≤ BOARD_HEIGHT * CELL_SIZE) :
    GetColumnFromMouse p = some 0 ∧ columnBySpec p = none := by
  have hq1 : -1 < p.x / CELL_SIZE := by
    rw [lt_div_iff₀ (by norm_num)]
    linarith
  have hq2 : p.x / CELL_SIZE < 0 := by
    rw [div_lt_iff₀ (by norm_num)]
    linarith
  have hceil : ⌈p.x / CELL_SIZE⌉ = 0 := by
    rw [Int.ceil_eq_iff]
    exact ⟨by exact_mod_cast hq1, by exact_mod_cast hq2.le⟩
  have hfloor : ⌊p.x / CELL_SIZE⌋ < 0 := by
    rw [Int.floor_lt]
    exact_mod_cast hq2
  constructor
  · unfold GetColumnFromMouse
    simp only [truncToInt_of_neg _ hq2, hceil]
    rw [if_neg (not_lt.mpr hy), dif_pos (by decide)]
    rfl
  · unfold columnBySpec
    rw [dif_neg]
    omega

/-- C16 (the code at the failing input): at the pointer position (-40, 100), left of the
board by half a cell, `GetColumnFromMouse` returns column 0, where the floor of `x / 80`
is -1 and the specification gives no column. The same holds at every pointer position
with -80 < x < 0 and y ≤ 480; at every other position (x ≥ 0 or x ≤ -80) the code
returns what the specification says. -/
theorem GetColumnFromMouse_truncates_toward_zero :
    GetColumnFromMouse ⟨-40, 100⟩ = some 0 ∧ columnBySpec ⟨-40, 100⟩ = none ∧
      ⌊(-40 : ℚ) / CELL_SIZE⌋ = -1 ∧
      (∀ p : Vector2, -(CELL_SIZE : ℚ) < p.x → p.x < 0 → p.y ≤ BOARD_HEIGHT * CELL_SIZE →
        GetColumnFromMouse p = some 0 ∧ columnBySpec p = none) ∧
      (∀ p : Vector2, 0 ≤ p.x ∨ p.x ≤ -(CELL_SIZE : ℚ) →
        GetColumnFromMouse p = columnBySpec p) := by
  have h40 := getColumnFromMouse_near_left ⟨-40, 100⟩ (by norm_num) (by norm_num)
    (by norm_num)
  refine ⟨h40.1, h40.2, ?_, getColumnFromMouse_near_left, ?_⟩
  · rw [Int.floor_eq_iff]
    norm_num
  · intro p hp
    rcases hp with hp | hp
    · exact getColumnFromMouse_of_floor p
        (truncToInt_of_nonneg _ (div_nonneg hp (by norm_num)))
    · have := getColumnFromMouse_far_left p hp
      rw [this.1, this.2]

/-- C10 (the code at the failing input): in the two-human game just started, a click at
the pointer position (-40, 100), left of the first column, where the specification maps
the pointer to no column, is taken as a click on column 0: the tick places a PlayerOne
disk on the bottom cell of column 0 and passes the turn to PlayerTwo, where the claim
says that nothing changes. In the other cases of the claim (no click, a click that maps
to no column, a pointer below the board, right of the last column or a cell or more left
of the first, a click on a full column) the tick leaves the board, the active player,
the game state, the recorded winner, the countdown and the mode unchanged. -/
theorem click_left_of_board_is_played :
    Reachable (UpdateDrawFrame pressTwo initialGame) ∧
      (UpdateDrawFrame pressTwo initialGame).gameState = GAME_PLAY ∧
      columnBySpec (clickAt (-40) 100 0).mousePos = none ∧
      GetColumnFromMouse (clickAt (-40) 100 0).mousePos = some 0 ∧
      (UpdateDrawFrame pressTwo initialGame).board 5 0 = EMPTY ∧
      (UpdateDrawFrame (clickAt (-40) 100 0)
        (UpdateDrawFrame pressTwo initialGame)).board 5 0 = PLAYER1 ∧
      (UpdateDrawFrame pressTwo initialGame).currentPlayer = PLAYER1 ∧
      (UpdateDrawFrame (clickAt (-40) 100 0)
        (UpdateDrawFrame pressTwo initialGame)).currentPlayer = PLAYER2 ∧
      (∀ (g : Game) (i : Input), g.gameState = GAME_PLAY →
        (i.mouseLeft = false ∨ GetColumnFromMouse i.mousePos = none ∨
          i.mousePos.y > BOARD_HEIGHT * CELL_SIZE ∨
          i.mousePos.x ≥ BOARD_WIDTH * CELL_SIZE ∨ i.mousePos.x ≤ -(CELL_SIZE : ℚ) ∨
          ∃ column, GetColumnFromMouse i.mousePos = some column ∧
            ∀ row, g.board row column ≠ EMPTY) →
        (UpdateDrawFrame i g).board = g.board ∧
          (UpdateDrawFrame i g).currentPlayer = g.currentPlayer ∧
          (UpdateDrawFrame i g).gameState = g.gameState ∧
          (UpdateDrawFrame i g).winningPlayer = g.winningPlayer ∧
          (UpdateDrawFrame i g).gameOverTimer = g.gameOverTimer ∧
          (UpdateDrawFrame i g).isComputerMode = g.isComputerMode) := by
  have h40 := getColumnFromMouse_near_left ⟨-40, 100⟩ (by norm_num) (by norm_num)
    (by norm_num)
  have e : UpdateDrawFrame (clickAt (-40) 100 0) (UpdateDrawFrame pressTwo initialGame) =
      clickColumn 0 0 (UpdateDrawFrame pressTwo initialGame) :=
    updateDrawFrame_click _ _ 0 rfl rfl h40.1
  refine ⟨Reachable.tick pressTwo initialGame Reachable.initial, rfl, h40.2, h40.1, rfl,
    by rw [e]; decide, rfl, by rw [e]; decide, ?_⟩
  intro g i hs hmove
  apply updateDrawFrame_invalid_move g i hs
  rcases hmove with h | h | h | h | h | h
  · exact Or.inl h
  · exact Or.inr (Or.inl h)
  · exact Or.inr (Or.inr (Or.inl h))
  · exact Or.inr (Or.inr (Or.inr (Or.inl h)))
  · exact Or.inr (Or.inl (getColumnFromMouse_far_left i.mousePos h).1)
  · exact Or.inr (Or.inr (Or.inr (Or.inr h)))

/-! ## The placement sound -/

theorem placeDisk_played (column : Fin BOARD_WIDTH) (g : Game) :
    (PlaceDisk column g).2.played = g.played ++ [Sound.soundPlace] := by
  cases h : rowsBottomUp.find? (fun row => g.board row column == EMPTY) with
  | some row => rw [placeDisk_some column g row h]
  | none => rw [placeDisk_none column g h]

theorem reachable_fullColumnGame : Reachable fullColumnGame := by
  have h0 : Reachable (UpdateDrawFrame pressTwo initialGame) :=
    Reachable.tick pressTwo initialGame Reachable.initial
  have h1 := reachable_clickColumn _ h0 (by decide) 0 (by decide) 0
  have h2 := reachable_clickColumn _ h1 (by decide) 0 (by decide) 0
  have h3 := reachable_clickColumn _ h2 (by decide) 0 (by decide) 0
  have h4 := reachable_clickColumn _ h3 (by decide) 0 (by decide) 0
  have h5 := reachable_clickColumn _ h4 (by decide) 0 (by decide) 0
  have h6 := reachable_clickColumn _ h5 (by decide) 0 (by decide) 0
  exact h6

/-- C18 (the code at the failing input): `fullColumnGame` is reached in a two-human game
by six clicks on column 0, which is then full. A further placement attempt on column 0
fails and leaves the board as it was, yet the placement sound is played; the same holds
for the tick of a click on that column, and for every attempt on a full column. -/
theorem PlaceDisk_plays_sound_on_full_column :
    Reachable fullColumnGame ∧ fullColumnGame.gameState = GAME_PLAY ∧
      (∀ row, fullColumnGame.board row 0 ≠ EMPTY) ∧
      (PlaceDisk 0 fullColumnGame).1 = false ∧
      (PlaceDisk 0 fullColumnGame).2.board = fullColumnGame.board ∧
      (PlaceDisk 0 fullColumnGame).2.played = fullColumnGame.played ++ [Sound.soundPlace] ∧
      (UpdateDrawFrame (clickAt 40 100 0) fullColumnGame).played =
        fullColumnGame.played ++ [Sound.soundPlace] ∧
      (∀ (g : Game) (column : Fin BOARD_WIDTH), (∀ row, g.board row column ≠ EMPTY) →
        (PlaceDisk column g).1 = false ∧
          (PlaceDisk column g).2.played = g.played ++ [Sound.soundPlace]) := by
  have hfull : ∀ row, fullColumnGame.board row 0 ≠ EMPTY := by decide
  have hnone := find_of_full fullColumnGame.board 0 hfull
  have hcol : GetColumnFromMouse (clickAt 40 100 0).mousePos = some 0 :=
    getColumnFromMouse_column 40 100 0 (by decide) (by norm_num) (by norm_num) (by norm_num)
  refine ⟨reachable_fullColumnGame, by decide, hfull, ?_, ?_, placeDisk_played _ _, ?_, ?_⟩
  · rw [placeDisk_none _ _ hnone]
  · rw [placeDisk_none _ _ hnone]
  · rw [updateDrawFrame_play _ _ (by decide), updateGamePlay_click _ _ 0 rfl hcol,
      placeDisk_none _ _ hnone]
    rw [if_neg (by simp)]
  · intro g column hg
    rw [placeDisk_none _ _ (find_of_full g.board column hg)]
    exact ⟨rfl, rfl⟩

/-! ## The game-over screen -/

theorem roundMagnitude_zero (exp : Int) : roundMagnitude 0 exp = some (0, 0) := by
  unfold roundMagnitude
  rw [if_pos rfl]

theorem intOfFloat_zero (neg : Bool) (exp : Int) : intOfFloat (CFloat.finite neg 0 exp) = 0 := by
  unfold intOfFloat
  cases neg <;> simp

theorem clamp_negative (mag : Nat) :
    (if INT_MIN ≤ -(mag : Int) ∧ -(mag : Int) ≤ INT_MAX then -(mag : Int) else INT_MIN) ≤ 0 := by
  by_cases h : INT_MIN ≤ -(mag : Int) ∧ -(mag : Int) ≤ INT_MAX
  · rw [if_pos h]
    omega
  · rw [if_neg h]
    decide

theorem intOfFloat_negative (mant : Nat) (exp : Int) :
    intOfFloat (CFloat.finite true mant exp) ≤ 0 := by
  unfold intOfFloat
  simp only [if_true]
  exact clamp_negative _

theorem intOfFloat_roundToFloat (mant : Nat) (exp : Int) :
    intOfFloat (roundToFloat true mant exp) ≤ 0 := by
  unfold roundToFloat
  split
  · exact intOfFloat_negative _ _
  · decide

theorem floatOfInt_thousand : floatOfInt 1000 = CFloat.finite false 1000 0 := by
  decide

theorem floatOfInt_nonpos (z : Int) (hz : z ≤ 0) : FloatNonpos (floatOfInt z) := by
  unfold floatOfInt roundToFloat
  by_cases h0 : z = 0
  · subst h0
    simp [roundMagnitude_zero, FloatNonpos]
  · have hneg : decide (z < 0) = true := by
      rw [decide_eq_true_eq]
      omega
    rw [hneg]
    split
    · exact Or.inl rfl
    · rfl

theorem floatMul_thousand_nonneg (a : CFloat) (ha : FloatNonneg a) :
    FloatNonneg (floatMul a (CFloat.finite false 1000 0)) := by
  cases a with
  | finite neg mant exp =>
    unfold floatMul roundToFloat
    rcases ha with ha | ha
    · subst ha
      simp only [Bool.xor_false]
      split
      · exact Or.inl rfl
      · rfl
    · subst ha
      simp only [Nat.zero_mul, roundMagnitude_zero]
      exact Or.inr rfl
  | infinite neg =>
    have hneg : neg = false := ha
    subst hneg
    exact (rfl : (false : Bool) = false)
  | nan => exact absurd ha (by simp [FloatNonneg])

theorem floatSub_finite (n1 n2 : Bool) (m1 m2 : Nat) (e1 e2 : Int) (a b : Int)
    (ha : a = (if n1 then -1 else 1) * ((m1 * 2 ^ (e1 - min e1 e2).toNat : Nat) : Int))
    (hb : b = (if n2 then -1 else 1) * ((m2 * 2 ^ (e2 - min e1 e2).toNat : Nat) : Int)) :
    floatSub (CFloat.finite n1 m1 e1) (CFloat.finite n2 m2 e2) =
      if a - b = 0 then CFloat.finite (n1 && !n2) 0 0
      else roundToFloat (decide (a - b < 0)) (a - b).natAbs (min e1 e2) := by
  subst ha hb
  rfl

theorem intOfFloat_floatSub (a b : CFloat) (ha : FloatNonpos a) (hb : FloatNonneg b) :
    intOfFloat (floatSub a b) ≤ 0 := by
  cases a with
  | finite n1 m1 e1 =>
    cases b with
    | finite n2 m2 e2 =>
      have h1 : (if n1 then (-1 : Int) else 1) *
          ((m1 * 2 ^ (e1 - min e1 e2).toNat : Nat) : Int) ≤ 0 := by
        rcases ha with ha | ha
        · subst ha
          simp only [if_true]
          have := Int.ofNat_nonneg (m1 * 2 ^ (e1 - min e1 e2).toNat)
          omega
        · subst ha
          simp
      have h2 : 0 ≤ (if n2 then (-1 : Int) else 1) *
          ((m2 * 2 ^ (e2 - min e1 e2).toNat : Nat) : Int) := by
        rcases hb with hb | hb
        · subst hb
          simp only [Bool.false_eq_true, if_false]
          have := Int.ofNat_nonneg (m2 * 2 ^ (e2 - min e1 e2).toNat)
          omega
        · subst hb
          simp
      rw [floatSub_finite n1 n2 m1 m2 e1 e2 _ _ rfl rfl]
      by_cases hd : (if n1 then (-1 : Int) else 1) *
          ((m1 * 2 ^ (e1 - min e1 e2).toNat : Nat) : Int) -
          (if n2 then (-1 : Int) else 1) *
          ((m2 * 2 ^ (e2 - min e1 e2).toNat : Nat) : Int) = 0
      · rw [if_pos hd]
        exact le_of_eq (intOfFloat_zero _ _)
      · rw [if_neg hd]
        have hlt : decide ((if n1 then (-1 : Int) else 1) *
            ((m1 * 2 ^ (e1 - min e1 e2).toNat : Nat) : Int) -
            (if n2 then (-1 : Int) else 1) *
            ((m2 * 2 ^ (e2 - min e1 e2).toNat : Nat) : Int) < 0) = true := by
          rw [decide_eq_true_eq]
          omega
        rw [hlt]
        exact intOfFloat_roundToFloat _ _
    | infinite n2 => exact le_of_eq (by rfl : intOfFloat _ = INT_MIN) |>.trans (by decide)
    | nan => exact absurd hb (by simp [FloatNonneg])
  | infinite n1 =>
    cases b with
    | finite n2 m2 e2 => exact le_of_eq (by rfl : intOfFloat _ = INT_MIN) |>.trans (by decide)
    | infinite n2 =>
      have h1 : n1 = true := ha
      have h2 : n2 = false := hb
      subst h1 h2
      decide
    | nan => exact absurd hb (by simp [FloatNonneg])
  | nan => exact absurd ha (by simp [FloatNonpos])

theorem countdownAfter_nonpos (gameOverTimer : Int) (frameTime : CFloat)
    (ht : gameOverTimer ≤ 0) (hft : FloatNonneg frameTime) :
    countdownAfter gameOverTimer frameTime ≤ 0 := by
  unfold countdownAfter
  rw [floatOfInt_thousand]
  exact intOfFloat_floatSub _ _ (floatOfInt_nonpos gameOverTimer ht)
    (floatMul_thousand_nonneg frameTime hft)

theorem updateGameOver_leave (i : Input) (g : Game)
    (h : i.mouseLeft = true ∨ g.gameOverTimer ≤ 0 ∨
      countdownAfter g.gameOverTimer i.frameTime ≤ 0) :
    ∃ t, updateGameOver i g =
      { ResetBoard { g with gameOverTimer := t } with
          gameState := TITLE_SCREEN, winningPlayer := EMPTY } := by
  unfold updateGameOver
  by_cases ht : g.gameOverTimer > 0
  · simp only [ht, if_true]
    rw [if_pos]
    · exact ⟨_, rfl⟩
    · rcases h with h | h | h
      · simp [h]
      · omega
      · simp [h]
  · simp only [ht, if_false]
    rw [if_pos]
    · exact ⟨_, rfl⟩
    · simp [not_lt.mp ht]

theorem updateGameOver_stay (i : Input) (g : Game) (hclick : i.mouseLeft = false)
    (ht : g.gameOverTimer > 0) (h : ¬ countdownAfter g.gameOverTimer i.frameTime ≤ 0) :
    updateGameOver i g =
      { g with gameOverTimer := countdownAfter g.gameOverTimer i.frameTime } := by
  unfold updateGameOver
  simp only [ht, if_true]
  rw [if_neg]
  simp [hclick, h]

/-- C11: in a GameOver state, on a tick with elapsed time at least 0, the game returns
to TitleScreen exactly when a click occurred or the countdown after subtracting the
elapsed milliseconds, as the `float` statement `gameOverTimer -= GetFrameTime() * 1000`
computes and stores it, is zero or below. On that transition every cell is `EMPTY`, the
active player is PlayerOne and the winner record is cleared; otherwise the state stays
GameOver with board and winner unchanged, and the countdown holds the subtracted
value. -/
theorem tick_game_over (g : Game) (i : Input) (hs : g.gameState = GAME_OVER)
    (hft : FloatNonneg i.frameTime) :
    ((UpdateDrawFrame i g).gameState = TITLE_SCREEN ↔
        (i.mouseLeft = true ∨ countdownAfter g.gameOverTimer i.frameTime ≤ 0)) ∧
      ((UpdateDrawFrame i g).gameState = TITLE_SCREEN →
        (∀ row col, (UpdateDrawFrame i g).board row col = EMPTY) ∧
          (UpdateDrawFrame i g).currentPlayer = PLAYER1 ∧
          (UpdateDrawFrame i g).winningPlayer = EMPTY) ∧
      ((UpdateDrawFrame i g).gameState ≠ TITLE_SCREEN →
        (UpdateDrawFrame i g).gameState = GAME_OVER ∧
          (UpdateDrawFrame i g).board = g.board ∧
          (UpdateDrawFrame i g).winningPlayer = g.winningPlayer ∧
          (UpdateDrawFrame i g).gameOverTimer =
            countdownAfter g.gameOverTimer i.frameTime) := by
  rw [updateDrawFrame_over i g hs]
  by_cases h : i.mouseLeft = true ∨ g.gameOverTimer ≤ 0 ∨
      countdownAfter g.gameOverTimer i.frameTime ≤ 0
  · obtain ⟨t, e⟩ := updateGameOver_leave i g h
    have hrhs : i.mouseLeft = true ∨ countdownAfter g.gameOverTimer i.frameTime ≤ 0 := by
      rcases h with h | h | h
      · exact Or.inl h
      · exact Or.inr (countdownAfter_nonpos _ _ h hft)
      · exact Or.inr h
    rw [e]
    exact ⟨⟨fun _ => hrhs, fun _ => rfl⟩, fun _ => ⟨fun _ _ => rfl, rfl, rfl⟩,
      fun hne => absurd rfl hne⟩
  · have hclick : i.mouseLeft = false := by
      cases hc : i.mouseLeft with
      | false => rfl
      | true => exact absurd (Or.inl hc) h
    have ht : g.gameOverTimer > 0 := by
      by_contra hle
      exact h (Or.inr (Or.inl (not_lt.mp hle)))
    have hc : ¬ countdownAfter g.gameOverTimer i.frameTime ≤ 0 :=
      fun hle => h (Or.inr (Or.inr hle))
    rw [updateGameOver_stay i g hclick ht hc]
    refine ⟨⟨fun hst => ?_, fun hh => ?_⟩, fun hst => ?_, fun _ => ⟨hs, rfl, rfl, rfl⟩⟩
    · simp only [hs] at hst
      exact absurd hst (by simp)
    · rcases hh with hh | hh
      · rw [hclick] at hh
        exact absurd hh (by simp)
      · exact absurd hh hc
    · simp only [hs] at hst
      exact absurd hst (by simp)

theorem countdownAfter_16ms : countdownAfter 1000 float16ms = 984 := by
  decide

theorem countdownAfter_999ms : countdownAfter 1000 float999ms = 1 := by
  decide

/-- C11 at the start of the countdown (1000), on a frame of `0.016f` seconds without
click: the product is rounded to 16, the countdown becomes 984 and the state stays
GameOver with the winner unchanged. -/
theorem tick_game_over_witness :
    gameOverStart.gameState = GAME_OVER ∧ FloatNonneg (idleFrame float16ms).frameTime ∧
      (UpdateDrawFrame (idleFrame float16ms) gameOverStart).gameState = GAME_OVER ∧
      (UpdateDrawFrame (idleFrame float16ms) gameOverStart).winningPlayer = PLAYER1 ∧
      (UpdateDrawFrame (idleFrame float16ms) gameOverStart).gameOverTimer = 984 :=
  have hstay : (UpdateDrawFrame (idleFrame float16ms) gameOverStart).gameState
      ≠ TITLE_SCREEN :=
    fun hst => absurd
      ((tick_game_over gameOverStart (idleFrame float16ms) rfl (Or.inl rfl)).1.mp hst)
      (by decide)
  ⟨rfl, Or.inl rfl,
    ((tick_game_over gameOverStart (idleFrame float16ms) rfl (Or.inl rfl)).2.2 hstay).1,
    ((tick_game_over gameOverStart (idleFrame float16ms) rfl (Or.inl rfl)).2.2 hstay).2.2.1,
    (((tick_game_over gameOverStart (idleFrame float16ms) rfl
      (Or.inl rfl)).2.2 hstay).2.2.2).trans countdownAfter_16ms⟩

/-! ## The choice of the computer opponent -/

theorem firstWinningColumn_cons (player : CellState) (col : Fin BOARD_WIDTH)
    (rest : List (Fin BOARD_WIDTH)) (board : Board) :
    firstWinningColumn player (col :: rest) board =
      if (CheckWinningMove player col board).1 then (some col, board)
      else firstWinningColumn player rest board := by
  rw [firstWinningColumn]
  simp only [checkWinningMove_board]

theorem firstWinningColumn_none_iff (player : CellState) (cols : List (Fin BOARD_WIDTH))
    (board : Board) :
    (firstWinningColumn player cols board).1 = none ↔
      ∀ col ∈ cols, (CheckWinningMove player col board).1 = false := by
  induction cols with
  | nil => simp [firstWinningColumn]
  | cons col rest ih =>
    rw [firstWinningColumn_cons]
    cases h : (CheckWinningMove player col board).1 with
    | true => simp [h]
    | false => simp [h, ih]

theorem firstWinningColumn_some (player : CellState) (cols : List (Fin BOARD_WIDTH))
    (board : Board) (hsorted : cols.Pairwise (· < ·)) (col : Fin BOARD_WIDTH)
    (h : (firstWinningColumn player cols board).1 = some col) :
    col ∈ cols ∧ (CheckWinningMove player col board).1 = true ∧
      ∀ col' ∈ cols, col' < col → (CheckWinningMove player col' board).1 = false := by
  induction cols with
  | nil => simp [firstWinningColumn] at h
  | cons x rest ih =>
    rw [List.pairwise_cons] at hsorted
    rw [firstWinningColumn_cons] at h
    cases hx : (CheckWinningMove player x board).1 with
    | true =>
      simp only [hx, if_true, Option.some.injEq] at h
      subst h
      refine ⟨List.mem_cons_self _ _, hx, ?_⟩
      intro col' hmem hlt
      rcases List.mem_cons.mp hmem with e | e
      · subst e; exact absurd hlt (lt_irrefl _)
      · exact absurd (hsorted.1 col' e) (not_lt.mpr hlt.le)
    | false =>
      simp only [hx, Bool.false_eq_true, if_false] at h
      obtain ⟨h1, h2, h3⟩ := ih hsorted.2 h
      refine ⟨List.mem_cons_of_mem _ h1, h2, ?_⟩
      intro col' hmem hlt
      rcases List.mem_cons.mp hmem with e | e
      · subst e; exact hx
      · exact h3 col' e hlt

theorem firstWinningColumn_exists (player : CellState) (board : Board)
    (col : Fin BOARD_WIDTH) (h : (CheckWinningMove player col board).1 = true) :
    ∃ col', (firstWinningColumn player (List.finRange BOARD_WIDTH) board).1 = some col' := by
  cases hf : (firstWinningColumn player (List.finRange BOARD_WIDTH) board).1 with
  | some col' => exact ⟨col', rfl⟩
  | none =>
    have := (firstWinningColumn_none_iff player _ board).mp hf col (List.mem_finRange col)
    rw [h] at this
    exact absurd this (by simp)

theorem getBestMove_of_player1 (rand : Nat) (board : Board) (col : Fin BOARD_WIDTH)
    (h2 : (firstWinningColumn PLAYER2 (List.finRange BOARD_WIDTH) board).1 = none)
    (h1 : (firstWinningColumn PLAYER1 (List.finRange BOARD_WIDTH) board).1 = some col) :
    (GetBestMove rand board).1 = some col := by
  have hb := firstWinningColumn_board PLAYER2 (List.finRange BOARD_WIDTH) board
  unfold GetBestMove
  split
  · rename_i col' board1 heq
    rw [heq] at h2
    exact absurd h2 (by simp)
  · rename_i board1 heq
    rw [heq] at hb
    simp only at hb
    subst hb
    split
    · rename_i col' board2 heq1
      rw [heq1] at h1
      exact h1
    · rename_i board2 heq1
      rw [heq1] at h1
      exact absurd h1 (by simp)

theorem getBestMove_of_none (rand : Nat) (board : Board)
    (h2 : (firstWinningColumn PLAYER2 (List.finRange BOARD_WIDTH) board).1 = none)
    (h1 : (firstWinningColumn PLAYER1 (List.finRange BOARD_WIDTH) board).1 = none) :
    (GetBestMove rand board).1 = GetRandomValidColumn rand board := by
  have hb := firstWinningColumn_board PLAYER2 (List.finRange BOARD_WIDTH) board
  unfold GetBestMove
  split
  · rename_i col' board1 heq
    rw [heq] at h2
    exact absurd h2 (by simp)
  · rename_i board1 heq
    rw [heq] at hb
    simp only at hb
    subst hb
    have hb1 := firstWinningColumn_board PLAYER1 (List.finRange BOARD_WIDTH) board1
    split
    · rename_i col' board2 heq1
      rw [heq1] at h1
      exact absurd h1 (by simp)
    · rename_i board2 heq1
      rw [heq1] at hb1
      simp only at hb1
      subst hb1
      rfl

/-- C14: on a board with no four-in-a-row on which some column lets PlayerTwo complete a
four-in-a-row, `GetBestMove` returns, for every random draw, the leftmost such column.
(The claim also assumes that no column lets PlayerOne complete one; the code needs no
such assumption.) -/
theorem GetBestMove_takes_own_win (board : Board) (rand : Nat)
    (hnowin : ¬ FourInARow board) (hwin : ∃ column, WinsByPlacing board PLAYER2 column) :
    ∃ column, (GetBestMove rand board).1 = some column ∧
      WinsByPlacing board PLAYER2 column ∧
      ∀ column', column' < column → ¬ WinsByPlacing board PLAYER2 column' := by
  obtain ⟨c0, hc0⟩ := hwin
  have hp0 := (checkWinningMove_iff board PLAYER2 c0 (by decide) hnowin).mpr hc0
  obtain ⟨column, hcol⟩ := firstWinningColumn_exists PLAYER2 board c0 hp0
  obtain ⟨-, h2, h3⟩ := firstWinningColumn_some PLAYER2 _ board
    (List.pairwise_lt_finRange _) column hcol
  refine ⟨column, getBestMove_of_player2 rand board column hcol,
    (checkWinningMove_iff board PLAYER2 column (by decide) hnowin).mp h2, ?_⟩
  intro column' hlt hw
  have := h3 column' (List.mem_finRange _) hlt
  rw [(checkWinningMove_iff board PLAYER2 column' (by decide) hnowin).mpr hw] at this
  exact absurd this (by simp)

/-- C14 on `ownWinBoard`: PlayerOne completes nothing, PlayerTwo completes column 6. -/
theorem GetBestMove_takes_own_win_witness :
    ¬ FourInARow ownWinBoard ∧ (∀ column, ¬ WinsByPlacing ownWinBoard PLAYER1 column) ∧
      (∃ column, WinsByPlacing ownWinBoard PLAYER2 column) ∧
      ∃ column, (GetBestMove 4 ownWinBoard).1 = some column ∧
        WinsByPlacing ownWinBoard PLAYER2 column ∧
        ∀ column', column' < column → ¬ WinsByPlacing ownWinBoard PLAYER2 column' :=
  have hnowin : ¬ FourInARow ownWinBoard :=
    fun h => absurd ((checkWin_iff ownWinBoard).mpr h) (by decide)
  have hall : ∀ c : Fin BOARD_WIDTH, (CheckWinningMove PLAYER1 c ownWinBoard).1 = false := by
    decide
  ⟨hnowin,
    fun column h => absurd
      ((checkWinningMove_iff ownWinBoard PLAYER1 column (by decide) hnowin).mpr h)
      (by rw [hall column]; simp),
    ⟨6, (checkWinningMove_iff ownWinBoard PLAYER2 6 (by decide) hnowin).mp (by decide)⟩,
    GetBestMove_takes_own_win ownWinBoard 4 hnowin
      ⟨6, (checkWinningMove_iff ownWinBoard PLAYER2 6 (by decide) hnowin).mp (by decide)⟩⟩

theorem lineOf_setCell_of_lineOf (board : Board) (row : Fin BOARD_HEIGHT)
    (column : Fin BOARD_WIDTH) (value player : CellState) (hline : LineOf board player)
    (hplayer : player ≠ EMPTY) (he : board row column = EMPTY) :
    LineOf (setCell board row column value) player := by
  obtain ⟨r, c, d, hd, hk⟩ := hline
  refine ⟨r, c, d, hd, ?_⟩
  intro k hk0 hk4
  have hcell := hk k hk0 hk4
  rw [cellAt_setCell, if_neg]
  · exact hcell
  · rintro ⟨hr, hc⟩
    rw [cellAt_eq board _ _ row column hr hc, he] at hcell
    exact hplayer (Option.some.inj hcell).symm

theorem winsByPlacing_of_probe (board : Board) (player : CellState)
    (column : Fin BOARD_WIDTH) (hplayer : player ≠ EMPTY)
    (h : (CheckWinningMove player column board).1 = true) :
    WinsByPlacing board PLAYER1 column ∨ WinsByPlacing board PLAYER2 column := by
  cases hf : rowsBottomUp.find? (fun row => board row column == EMPTY) with
  | none =>
    rw [checkWinningMove_none player column board hf] at h
    exact absurd h (by simp)
  | some row =>
    rw [checkWinningMove_some player column board row hf] at h
    have hlow := find_isLowestEmpty board column row hf
    obtain ⟨q, hq, hline⟩ := (checkWin_iff _).mp h
    have hq' : LineOf (setCell board row column q) q := by
      rcases lineOf_setCell board row column player q hline with e | hl
      · subst e; exact hline
      · exact lineOf_setCell_of_lineOf board row column q q hl hq hlow.1
    cases q with
    | EMPTY => exact absurd rfl hq
    | PLAYER1 => exact Or.inl ⟨row, hlow, hq'⟩
    | PLAYER2 => exact Or.inr ⟨row, hlow, hq'⟩

theorem probes_false_of_quiet (board : Board)
    (h1 : ∀ column, ¬ WinsByPlacing board PLAYER1 column)
    (h2 : ∀ column, ¬ WinsByPlacing board PLAYER2 column) (player : CellState)
    (hplayer : player ≠ EMPTY) :
    (firstWinningColumn player (List.finRange BOARD_WIDTH) board).1 = none := by
  rw [firstWinningColumn_none_iff]
  intro col _
  cases h : (CheckWinningMove player col board).1 with
  | false => rfl
  | true =>
    rcases winsByPlacing_of_probe board player col hplayer h with hw | hw
    · exact absurd hw (h1 col)
    · exact absurd hw (h2 col)

theorem getRandomValidColumn_some (rand : Nat) (board : Board) (col : Fin BOARD_WIDTH)
    (h : GetRandomValidColumn rand board = some col) : board 0 col = EMPTY := by
  unfold GetRandomValidColumn at h
  simp only at h
  split at h
  · have hmem := List.get_mem
      ((List.finRange BOARD_WIDTH).filter fun col => board 0 col == EMPTY)
      (rand % ((List.finRange BOARD_WIDTH).filter fun col => board 0 col == EMPTY).length)
      (Nat.mod_lt _ (by assumption))
    rw [Option.some.inj h] at hmem
    simpa using (List.mem_filter.mp hmem).2
  · exact absurd h (by simp)

theorem getRandomValidColumn_isSome (rand : Nat) (board : Board) (col : Fin BOARD_WIDTH)
    (h : board 0 col = EMPTY) : ∃ col', GetRandomValidColumn rand board = some col' := by
  have hmem : col ∈ (List.finRange BOARD_WIDTH).filter fun col => board 0 col == EMPTY :=
    List.mem_filter.mpr ⟨List.mem_finRange col, by simp [h]⟩
  have hpos : ((List.finRange BOARD_WIDTH).filter fun col => board 0 col == EMPTY).length > 0 :=
    List.length_pos_of_mem hmem
  unfold GetRandomValidColumn
  simp only
  rw [dif_pos hpos]
  exact ⟨_, rfl⟩

theorem getRandomValidColumn_every (board : Board) (col : Fin BOARD_WIDTH)
    (h : board 0 col = EMPTY) : ∃ rand, GetRandomValidColumn rand board = some col := by
  have hmem : col ∈ (List.finRange BOARD_WIDTH).filter fun col => board 0 col == EMPTY :=
    List.mem_filter.mpr ⟨List.mem_finRange col, by simp [h]⟩
  obtain ⟨n, hn⟩ := List.get_of_mem hmem
  refine ⟨n.val, ?_⟩
  unfold GetRandomValidColumn
  simp only
  rw [dif_pos (Nat.lt_of_le_of_lt (Nat.zero_le _) n.isLt)]
  congr 1
  rw [← hn]
  congr 1
  exact Fin.ext (Nat.mod_eq_of_lt n.isLt)

/-- C15: on a board on which no column lets either player complete a four-in-a-row,
`GetBestMove` returns only columns whose topmost cell is `EMPTY`; it returns one for
every random draw when such a column exists; every such column is returned for some
random draw; and it returns the no-column signal exactly when no column has an `EMPTY`
topmost cell. -/
theorem GetBestMove_fallback (board : Board)
    (h1 : ∀ column, ¬ WinsByPlacing board PLAYER1 column)
    (h2 : ∀ column, ¬ WinsByPlacing board PLAYER2 column) :
    (∀ rand column, (GetBestMove rand board).1 = some column → board 0 column = EMPTY) ∧
      ((∃ column, board 0 column = EMPTY) →
        ∀ rand, ∃ column, (GetBestMove rand board).1 = some column ∧
          board 0 column = EMPTY) ∧
      (∀ column, board 0 column = EMPTY →
        ∃ rand, (GetBestMove rand board).1 = some column) ∧
      (∀ rand, (GetBestMove rand board).1 = none ↔ ∀ column, board 0 column ≠ EMPTY) := by
  have hbest : ∀ rand, (GetBestMove rand board).1 = GetRandomValidColumn rand board :=
    fun rand => getBestMove_of_none rand board
      (probes_false_of_quiet board h1 h2 PLAYER2 (by decide))
      (probes_false_of_quiet board h1 h2 PLAYER1 (by decide))
  refine ⟨?_, ?_, ?_, ?_⟩
  · intro rand column h
    rw [hbest] at h
    exact getRandomValidColumn_some rand board column h
  · rintro ⟨col, hcol⟩ rand
    obtain ⟨col', h⟩ := getRandomValidColumn_isSome rand board col hcol
    exact ⟨col', by rw [hbest]; exact h, getRandomValidColumn_some rand board col' h⟩
  · intro column hcol
    obtain ⟨rand, h⟩ := getRandomValidColumn_every board column hcol
    exact ⟨rand, by rw [hbest]; exact h⟩
  · intro rand
    rw [hbest]
    constructor
    · intro hnone column hcol
      obtain ⟨col', h⟩ := getRandomValidColumn_isSome rand board column hcol
      rw [hnone] at h
      exact absurd h (by simp)
    · intro hall
      exact getRandomValidColumn_none rand board hall

theorem quietBoard_quiet (player : CellState) (hplayer : player ≠ EMPTY)
    (column : Fin BOARD_WIDTH) : ¬ WinsByPlacing quietBoard player column := by
  have hnowin : ¬ FourInARow quietBoard :=
    fun h => absurd ((checkWin_iff quietBoard).mpr h) (by decide)
  have hall1 : ∀ c : Fin BOARD_WIDTH,
      (CheckWinningMove PLAYER1 c quietBoard).1 = false := by decide
  have hall2 : ∀ c : Fin BOARD_WIDTH,
      (CheckWinningMove PLAYER2 c quietBoard).1 = false := by decide
  intro h
  have := (checkWinningMove_iff quietBoard player column hplayer hnowin).mpr h
  cases player with
  | EMPTY => exact absurd rfl hplayer
  | PLAYER1 => rw [hall1 column] at this; exact absurd this (by simp)
  | PLAYER2 => rw [hall2 column] at this; exact absurd this (by simp)

/-- C15 on `quietBoard`, where the columns 1 to 5 have an `EMPTY` topmost cell. -/
theorem GetBestMove_fallback_witness :
    (∀ column, ¬ WinsByPlacing quietBoard PLAYER1 column) ∧
      (∀ column, ¬ WinsByPlacing quietBoard PLAYER2 column) ∧
      (∃ column, (GetBestMove 7 quietBoard).1 = some column ∧
        quietBoard 0 column = EMPTY) ∧
      (∃ rand, (GetBestMove rand quietBoard).1 = some 3) ∧
      (GetBestMove 7 quietBoard).1 ≠ none :=
  ⟨quietBoard_quiet PLAYER1 (by decide), quietBoard_quiet PLAYER2 (by decide),
    (GetBestMove_fallback quietBoard (quietBoard_quiet PLAYER1 (by decide))
      (quietBoard_quiet PLAYER2 (by decide))).2.1 ⟨3, by decide⟩ 7,
    (GetBestMove_fallback quietBoard (quietBoard_quiet PLAYER1 (by decide))
      (quietBoard_quiet PLAYER2 (by decide))).2.2.1 3 (by decide),
    fun h => absurd (((GetBestMove_fallback quietBoard (quietBoard_quiet PLAYER1 (by decide))
      (quietBoard_quiet PLAYER2 (by decide))).2.2.2 7).mp h 3) (by decide)⟩

/-- C13 (the code at the failing input): `blockBoard` is the board on which
`GetBestMove` is called after the human's click on column 2 in a reachable state of a
game against the computer. It is gravity-valid, has no four-in-a-row, has PlayerOne on
the bottom cells of columns 0, 1 and 2 and an `EMPTY` bottom cell in column 3; yet
`GetBestMove` returns column 6 and not column 3 for every random draw, and the tick ends
with a PlayerTwo disk in column 6 and the bottom cell of column 3 still `EMPTY`. -/
theorem GetBestMove_leaves_bottom_row_open :
    Reachable (computerGame beforeBlockBoard 4) ∧
      (PlaceDisk 2 (computerGame beforeBlockBoard 4)).2.board = blockBoard ∧
      Gravity blockBoard ∧ ¬ FourInARow blockBoard ∧
      blockBoard 5 0 = PLAYER1 ∧ blockBoard 5 1 = PLAYER1 ∧ blockBoard 5 2 = PLAYER1 ∧
      blockBoard 5 3 = EMPTY ∧
      (∀ rand, (GetBestMove rand blockBoard).1 = some 6) ∧
      (∀ rand, (GetBestMove rand blockBoard).1 ≠ some 3) ∧
      (clickColumn 2 0 (computerGame beforeBlockBoard 4)).board 2 6 = PLAYER2 ∧
      (clickColumn 2 0 (computerGame beforeBlockBoard 4)).board 5 3 = EMPTY := by
  have hbest : ∀ rand, (GetBestMove rand blockBoard).1 = some 6 :=
    fun rand => getBestMove_of_player2 rand blockBoard 6 (by decide)
  have hg : Gravity blockBoard := by
    unfold Gravity
    decide
  refine ⟨reachable_beforeBlockBoard, placeDisk_beforeBlockBoard.2, hg,
    fun h => absurd ((checkWin_iff blockBoard).mpr h) (by decide), rfl, rfl, rfl, rfl,
    hbest, ?_, by decide, by decide⟩
  intro rand h
  rw [hbest rand] at h
  exact absurd h (by decide)

/-! ## Runs of clicks -/

theorem placeDisk_samePlay (column : Fin BOARD_WIDTH) (g g' : Game)
    (hb : g.board = g'.board) (hp : g.currentPlayer = g'.currentPlayer) :
    (PlaceDisk column g).1 = (PlaceDisk column g').1 ∧
      (PlaceDisk column g).2.board = (PlaceDisk column g').2.board := by
  cases h : rowsBottomUp.find? (fun row => g.board row column == EMPTY) with
  | some row =>
    rw [placeDisk_some column g row h, placeDisk_some column g' row (by rw [← hb]; exact h)]
    simp only [hb, hp, and_self]
  | none =>
    rw [placeDisk_none column g h, placeDisk_none column g' (by rw [← hb]; exact h)]
    exact ⟨rfl, hb⟩

theorem computerMove_samePlay (rand : Nat) (g g' : Game)
    (hb : g.board = g'.board) (hp : g.currentPlayer = g'.currentPlayer) :
    (ComputerMove rand g).board = (ComputerMove rand g').board := by
  unfold ComputerMove
  simp only [hb]
  cases (GetBestMove rand g'.board).1 with
  | none => rfl
  | some column =>
    exact (placeDisk_samePlay column { g with board := (GetBestMove rand g'.board).2 }
      { g' with board := (GetBestMove rand g'.board).2 } rfl hp).2

theorem afterPlacement_samePlay (rand : Nat) (q q' : Game) (h : SamePlay q q') :
    SamePlay (afterPlacement rand q) (afterPlacement rand q') := by
  obtain ⟨hb, hp, hs, hm, hw⟩ := h
  cases hc : CheckWin q.board with
  | true =>
    rw [afterPlacement_win rand q hc, afterPlacement_win rand q' (by rw [← hb]; exact hc)]
    exact ⟨hb, hp, rfl, hm, fun _ => hp⟩
  | false =>
    have hc' : CheckWin q'.board = false := by rw [← hb]; exact hc
    by_cases h2 : q.isComputerMode = false ∨ q.currentPlayer ≠ PLAYER1
    · rw [afterPlacement_pass rand q hc h2,
        afterPlacement_pass rand q' hc' (by rw [← hm, ← hp]; exact h2)]
      exact ⟨hb, by simp only [hp], hs, hm, hw⟩
    · have hmode : q.isComputerMode = true := by
        cases hx : q.isComputerMode with
        | true => rfl
        | false => exact absurd (Or.inl hx) h2
      have hplayer : q.currentPlayer = PLAYER1 := by
        by_contra hne
        exact h2 (Or.inr hne)
      have hcm := computerMove_samePlay rand { q with currentPlayer := PLAYER2 }
        { q' with currentPlayer := PLAYER2 } hb rfl
      obtain ⟨f1, f2, -, f4, f5⟩ := computerMove_frame rand { q with currentPlayer := PLAYER2 }
      obtain ⟨f1', f2', -, f4', f5'⟩ :=
        computerMove_frame rand { q' with currentPlayer := PLAYER2 }
      rw [afterPlacement_computer rand q hc hmode hplayer,
        afterPlacement_computer rand q' hc' (by rw [← hm]; exact hmode)
          (by rw [← hp]; exact hplayer), hcm]
      cases CheckWin (ComputerMove rand { q' with currentPlayer := PLAYER2 }).board with
      | true =>
        simp only [if_true]
        exact ⟨hcm, by rw [f1, f1'], rfl, by rw [f5, f5']; exact hm,
          fun _ => by rw [f1, f1']⟩
      | false =>
        simp only [Bool.false_eq_true, if_false]
        refine ⟨hcm, rfl, by rw [f4, f4']; exact hs, by rw [f5, f5']; exact hm, ?_⟩
        intro hover
        simp only at hover ⊢
        rw [f2, f2']
        rw [f4] at hover
        exact hw hover

theorem clickColumn_samePlay (column : Fin BOARD_WIDTH) (rand : Nat) (g g' : Game)
    (h : SamePlay g g') : SamePlay (clickColumn column rand g) (clickColumn column rand g') := by
  obtain ⟨hb, hp, hs, hm, hw⟩ := h
  obtain ⟨e1, e2⟩ := placeDisk_samePlay column g g' hb hp
  obtain ⟨f1, f2, -, f4, f5⟩ := placeDisk_frame column g
  obtain ⟨f1', f2', -, f4', f5'⟩ := placeDisk_frame column g'
  have hplaced : SamePlay (PlaceDisk column g).2 (PlaceDisk column g').2 :=
    ⟨e2, by rw [f1, f1']; exact hp, by rw [f4, f4']; exact hs, by rw [f5, f5']; exact hm,
      fun hover => by rw [f2, f2']; rw [f4] at hover; exact hw hover⟩
  unfold clickColumn
  simp only [← e1]
  cases (PlaceDisk column g).1 with
  | true => simpa using afterPlacement_samePlay rand _ _ hplaced
  | false => simpa using hplaced

theorem afterPlacement_human (rand rand' : Nat) (g : Game) (hm : g.isComputerMode = false) :
    afterPlacement rand g = afterPlacement rand' g := by
  cases hc : CheckWin g.board with
  | true => rw [afterPlacement_win rand g hc, afterPlacement_win rand' g hc]
  | false =>
    rw [afterPlacement_pass rand g hc (Or.inl hm), afterPlacement_pass rand' g hc (Or.inl hm)]

theorem clickColumn_human (column : Fin BOARD_WIDTH) (rand rand' : Nat) (g : Game)
    (hm : g.isComputerMode = false) : clickColumn column rand g = clickColumn column rand' g := by
  unfold clickColumn
  simp only
  rw [afterPlacement_human rand rand' _ (by rw [(placeDisk_frame column g).2.2.2.2]; exact hm)]

theorem human_step (s t : Game) (i : Input) (column : Fin BOARD_WIDTH) (h : SamePlay s t)
    (hs : t.gameState = GAME_PLAY) (hm : t.isComputerMode = false)
    (hc : ClicksColumn i column) :
    SamePlay (UpdateDrawFrame i s) (clickColumn column 0 t) := by
  have hs' : s.gameState = GAME_PLAY := h.2.2.1.trans hs
  have hstep : UpdateDrawFrame i s = clickColumn column i.rand s := by
    rw [updateDrawFrame_play i s hs']
    unfold updateGamePlay
    simp only [hc.1, hc.2, if_true]
  rw [hstep, clickColumn_human column 0 i.rand t hm]
  exact clickColumn_samePlay column i.rand s t h

theorem afterPlacement_mode (rand : Nat) (g : Game) :
    (afterPlacement rand g).isComputerMode = g.isComputerMode := by
  cases hc : CheckWin g.board with
  | true => rw [afterPlacement_win rand g hc]
  | false =>
    by_cases h2 : g.isComputerMode = false ∨ g.currentPlayer ≠ PLAYER1
    · rw [afterPlacement_pass rand g hc h2]
    · have hmode : g.isComputerMode = true := by
        cases hx : g.isComputerMode with
        | true => rfl
        | false => exact absurd (Or.inl hx) h2
      have hplayer : g.currentPlayer = PLAYER1 := by
        by_contra hne
        exact h2 (Or.inr hne)
      have hf := (computerMove_frame rand { g with currentPlayer := PLAYER2 }).2.2.2.2
      rw [afterPlacement_computer rand g hc hmode hplayer]
      split
      · exact hf
      · exact hf

theorem clickColumn_mode (column : Fin BOARD_WIDTH) (rand : Nat) (g : Game) :
    (clickColumn column rand g).isComputerMode = g.isComputerMode := by
  have hf := (placeDisk_frame column g).2.2.2.2
  unfold clickColumn
  simp only
  split
  · rw [afterPlacement_mode, hf]
  · exact hf

theorem vertical_chain : ∀ c1 c2 c3 : Fin BOARD_WIDTH, c1 ≠ 3 → c2 ≠ 3 → c3 ≠ 3 →
    (clickColumns [3] (playingOn emptyBoard false PLAYER1)).gameState = GAME_PLAY ∧
    (clickColumns [3, c1] (playingOn emptyBoard false PLAYER1)).gameState = GAME_PLAY ∧
    (clickColumns [3, c1, 3] (playingOn emptyBoard false PLAYER1)).gameState = GAME_PLAY ∧
    (clickColumns [3, c1, 3, c2] (playingOn emptyBoard false PLAYER1)).gameState
      = GAME_PLAY ∧
    (clickColumns [3, c1, 3, c2, 3] (playingOn emptyBoard false PLAYER1)).gameState
      = GAME_PLAY ∧
    (clickColumns [3, c1, 3, c2, 3, c3] (playingOn emptyBoard false PLAYER1)).gameState
      = GAME_PLAY ∧
    (clickColumns [3, c1, 3, c2, 3, c3, 3] (playingOn emptyBoard false PLAYER1)).gameState
      = GAME_OVER ∧
    (clickColumns [3, c1, 3, c2, 3, c3, 3] (playingOn emptyBoard false PLAYER1)).winningPlayer
      = PLAYER1 := by
  decide

/-- C12: in two-human mode, from a Playing state with the reset board and PlayerOne
active, the clicks on columns 3, c1, 3, c2, 3, c3, 3 with c1, c2, c3 other than 3 keep
the game state Playing after each of the first six ticks, and after the seventh the game
state is GameOver with PlayerOne recorded as winner. -/
theorem vertical_win_in_column_3 (g0 : Game) (c1 c2 c3 : Fin BOARD_WIDTH)
    (i1 i2 i3 i4 i5 i6 i7 : Input)
    (hboard : ∀ row col, g0.board row col = EMPTY) (hstate : g0.gameState = GAME_PLAY)
    (hmode : g0.isComputerMode = false) (hplayer : g0.currentPlayer = PLAYER1)
    (hc1 : c1 ≠ 3) (hc2 : c2 ≠ 3) (hc3 : c3 ≠ 3)
    (h1 : ClicksColumn i1 3) (h2 : ClicksColumn i2 c1) (h3 : ClicksColumn i3 3)
    (h4 : ClicksColumn i4 c2) (h5 : ClicksColumn i5 3) (h6 : ClicksColumn i6 c3)
    (h7 : ClicksColumn i7 3) :
    (runTicks [i1] g0).gameState = GAME_PLAY ∧
      (runTicks [i1, i2] g0).gameState = GAME_PLAY ∧
      (runTicks [i1, i2, i3] g0).gameState = GAME_PLAY ∧
      (runTicks [i1, i2, i3, i4] g0).gameState = GAME_PLAY ∧
      (runTicks [i1, i2, i3, i4, i5] g0).gameState = GAME_PLAY ∧
      (runTicks [i1, i2, i3, i4, i5, i6] g0).gameState = GAME_PLAY ∧
      (runTicks [i1, i2, i3, i4, i5, i6, i7] g0).gameState = GAME_OVER ∧
      (runTicks [i1, i2, i3, i4, i5, i6, i7] g0).winningPlayer = PLAYER1 := by
  have hchain := vertical_chain c1 c2 c3 hc1 hc2 hc3
  simp only [clickColumns, List.foldl_cons, List.foldl_nil] at hchain
  obtain ⟨d1, d2, d3, d4, d5, d6, d7, dw⟩ := hchain
  simp only [runTicks, List.foldl_cons, List.foldl_nil]
  have a0 : SamePlay g0 (playingOn emptyBoard false PLAYER1) :=
    ⟨funext fun row => funext fun col => hboard row col, hplayer, hstate, hmode,
      fun hover => absurd (hstate.symm.trans hover) (by simp)⟩
  have a1 := human_step _ _ i1 3 a0 rfl rfl h1
  have a2 := human_step _ _ i2 c1 a1 d1 (by simp only [clickColumn_mode]; rfl) h2
  have a3 := human_step _ _ i3 3 a2 d2 (by simp only [clickColumn_mode]; rfl) h3
  have a4 := human_step _ _ i4 c2 a3 d3 (by simp only [clickColumn_mode]; rfl) h4
  have a5 := human_step _ _ i5 3 a4 d4 (by simp only [clickColumn_mode]; rfl) h5
  have a6 := human_step _ _ i6 c3 a5 d5 (by simp only [clickColumn_mode]; rfl) h6
  have a7 := human_step _ _ i7 3 a6 d6 (by simp only [clickColumn_mode]; rfl) h7
  have e7 := a7.2.2.1.trans d7
  exact ⟨a1.2.2.1.trans d1, a2.2.2.1.trans d2, a3.2.2.1.trans d3, a4.2.2.1.trans d4,
    a5.2.2.1.trans d5, a6.2.2.1.trans d6, e7, (a7.2.2.2.2 e7).trans dw⟩

theorem clicksColumn_3 : ClicksColumn (clickAt 280 100 0) 3 :=
  ⟨rfl, getColumnFromMouse_280⟩

theorem clicksColumn_0 : ClicksColumn (clickAt 40 100 0) 0 :=
  ⟨rfl, getColumnFromMouse_column 40 100 0 (by decide) (by norm_num) (by norm_num)
    (by norm_num)⟩

/-- C12 with PlayerTwo placing in column 0 three times. -/
theorem vertical_win_in_column_3_witness :
    (∀ row col, (playingOn emptyBoard false PLAYER1).board row col = EMPTY) ∧
      (playingOn emptyBoard false PLAYER1).gameState = GAME_PLAY ∧
      (playingOn emptyBoard false PLAYER1).isComputerMode = false ∧
      (playingOn emptyBoard false PLAYER1).currentPlayer = PLAYER1 ∧
      (0 : Fin BOARD_WIDTH) ≠ 3 ∧
      ClicksColumn (clickAt 280 100 0) 3 ∧ ClicksColumn (clickAt 40 100 0) 0 ∧
      (runTicks [clickAt 280 100 0, clickAt 40 100 0, clickAt 280 100 0, clickAt 40 100 0,
          clickAt 280 100 0, clickAt 40 100 0]
        (playingOn emptyBoard false PLAYER1)).gameState = GAME_PLAY ∧
      (runTicks [clickAt 280 100 0, clickAt 40 100 0, clickAt 280 100 0, clickAt 40 100 0,
          clickAt 280 100 0, clickAt 40 100 0, clickAt 280 100 0]
        (playingOn emptyBoard false PLAYER1)).gameState = GAME_OVER ∧
      (runTicks [clickAt 280 100 0, clickAt 40 100 0, clickAt 280 100 0, clickAt 40 100 0,
          clickAt 280 100 0, clickAt 40 100 0, clickAt 280 100 0]
        (playingOn emptyBoard false PLAYER1)).winningPlayer = PLAYER1 :=
  have h := vertical_win_in_column_3 (playingOn emptyBoard false PLAYER1) 0 0 0
    (clickAt 280 100 0) (clickAt 40 100 0) (clickAt 280 100 0) (clickAt 40 100 0)
    (clickAt 280 100 0) (clickAt 40 100 0) (clickAt 280 100 0)
    (fun _ _ => rfl) rfl rfl rfl (by decide) (by decide) (by decide)
    clicksColumn_3 clicksColumn_0 clicksColumn_3 clicksColumn_0 clicksColumn_3
    clicksColumn_0 clicksColumn_3
  ⟨fun _ _ => rfl, rfl, rfl, rfl, by decide, clicksColumn_3, clicksColumn_0,
    h.2.2.2.2.2.1, h.2.2.2.2.2.2.1, h.2.2.2.2.2.2.2⟩

/-! ## The winner invariant -/

theorem lineOf_placed (board : Board) (row : Fin BOARD_HEIGHT) (column : Fin BOARD_WIDTH)
    (player : CellState) (hnowin : ¬ FourInARow board)
    (hwin : CheckWin (setCell board row column player) = true) :
    LineOf (setCell board row column player) player := by
  obtain ⟨q, hq, hline⟩ := (checkWin_iff _).mp hwin
  rcases lineOf_setCell board row column player q hline with e | hl
  · subst e; exact hline
  · exact absurd ⟨q, hq, hl⟩ hnowin

theorem not_fourInARow_of_checkWin (board : Board) (h : CheckWin board = false) :
    ¬ FourInARow board := by
  intro hf
  rw [(checkWin_iff board).mpr hf] at h
  exact absurd h (by simp)

theorem not_fourInARow_of_empty (board : Board) (h : ∀ row col, board row col = EMPTY) :
    ¬ FourInARow board := by
  have e : board = emptyBoard := funext fun row => funext fun col => h row col
  rw [e]
  exact not_fourInARow_of_checkWin emptyBoard (by decide)

theorem computerMove_board_cases (rand : Nat) (g : Game) :
    (ComputerMove rand g).board = g.board ∨
      ∃ col row, (GetBestMove rand g.board).1 = some col ∧ IsLowestEmpty g.board col row ∧
        (ComputerMove rand g).board = setCell g.board row col g.currentPlayer := by
  have hb : (GetBestMove rand g.board).2 = g.board := getBestMove_board rand g.board
  unfold ComputerMove
  simp only [hb]
  cases hbest : (GetBestMove rand g.board).1 with
  | none => left; rfl
  | some col =>
    simp only
    cases hf : rowsBottomUp.find? (fun row => g.board row col == EMPTY) with
    | none =>
      left
      rw [placeDisk_none col { g with board := g.board } hf]
    | some row =>
      right
      refine ⟨col, row, rfl, find_isLowestEmpty g.board col row hf, ?_⟩
      rw [placeDisk_some col { g with board := g.board } row hf]

theorem afterPlacement_winnerInvariant (rand : Nat) (board : Board)
    (row : Fin BOARD_HEIGHT) (column : Fin BOARD_WIDTH) (p : Game)
    (hnowin : ¬ FourInARow board) (hb : p.board = setCell board row column p.currentPlayer)
    (hp : p.currentPlayer = PLAYER1 ∨ p.currentPlayer = PLAYER2)
    (hs : p.gameState = GAME_PLAY) : WinnerInvariant (afterPlacement rand p) := by
  cases hc : CheckWin p.board with
  | true =>
    rw [afterPlacement_win rand p hc]
    refine ⟨hp, fun e => absurd e (by simp), fun e => absurd e (by simp), fun _ => ⟨hp, ?_⟩⟩
    simp only
    rw [hb] at hc ⊢
    exact lineOf_placed board row column _ hnowin hc
  | false =>
    have hquiet := not_fourInARow_of_checkWin p.board hc
    by_cases h2 : p.isComputerMode = false ∨ p.currentPlayer ≠ PLAYER1
    · rw [afterPlacement_pass rand p hc h2]
      refine ⟨?_, fun e => ?_, fun _ => hquiet, fun e => ?_⟩
      · simp only
        rcases hp with hp | hp <;> rw [hp] <;> decide
      · simp only [hs] at e
        exact absurd e (by simp)
      · simp only [hs] at e
        exact absurd e (by simp)
    · have hmode : p.isComputerMode = true := by
        cases hx : p.isComputerMode with
        | true => rfl
        | false => exact absurd (Or.inl hx) h2
      have hplayer : p.currentPlayer = PLAYER1 := by
        by_contra hne
        exact h2 (Or.inr hne)
      obtain ⟨f1, -, -, f4, -⟩ := computerMove_frame rand { p with currentPlayer := PLAYER2 }
      rw [afterPlacement_computer rand p hc hmode hplayer]
      cases hcm : CheckWin (ComputerMove rand { p with currentPlayer := PLAYER2 }).board with
      | true =>
        simp only [if_true]
        refine ⟨Or.inr f1, fun e => absurd e (by simp), fun e => absurd e (by simp),
          fun _ => ⟨Or.inr f1, ?_⟩⟩
        simp only
        rw [f1]
        rcases computerMove_board_cases rand { p with currentPlayer := PLAYER2 } with
          e | ⟨col, row', -, -, e⟩
        · rw [e] at hcm
          simp only at hcm
          rw [hc] at hcm
          exact absurd hcm (by simp)
        · rw [e] at hcm ⊢
          exact lineOf_placed p.board row' col PLAYER2 hquiet hcm
      | false =>
        simp only [Bool.false_eq_true, if_false]
        refine ⟨Or.inl rfl, fun e => ?_, fun _ => not_fourInARow_of_checkWin _ hcm,
          fun e => ?_⟩
        · have e' : p.gameState = TITLE_SCREEN := f4.symm.trans e
          rw [hs] at e'
          exact absurd e' (by simp)
        · have e' : p.gameState = GAME_OVER := f4.symm.trans e
          rw [hs] at e'
          exact absurd e' (by simp)

theorem updateGamePlay_winnerInvariant (i : Input) (g : Game) (hs : g.gameState = GAME_PLAY)
    (hinv : WinnerInvariant g) : WinnerInvariant (updateGamePlay i g) := by
  cases hclick : i.mouseLeft with
  | false => rw [updateGamePlay_noclick i g hclick]; exact hinv
  | true =>
    cases hcol : GetColumnFromMouse i.mousePos with
    | none => rw [updateGamePlay_nocolumn i g hcol]; exact hinv
    | some column =>
      rw [updateGamePlay_click i g column hclick hcol]
      cases hf : rowsBottomUp.find? (fun row => g.board row column == EMPTY) with
      | none =>
        rw [placeDisk_none column g hf]
        rw [if_neg (by simp)]
        exact hinv
      | some row =>
        rw [placeDisk_some column g row hf]
        rw [if_pos rfl]
        exact afterPlacement_winnerInvariant _ g.board row column _ (hinv.2.2.1 hs) rfl
          hinv.1 hs

theorem updateDrawFrame_winnerInvariant (i : Input) (g : Game) (hinv : WinnerInvariant g) :
    WinnerInvariant (UpdateDrawFrame i g) := by
  cases hs : g.gameState with
  | TITLE_SCREEN =>
    rw [updateDrawFrame_title i g hs]
    rcases updateTitleScreen_cases i g with h | ⟨mode, sounds, h⟩ <;> rw [h]
    · exact hinv
    · exact ⟨hinv.1, fun e => absurd e (by simp),
        fun _ => not_fourInARow_of_empty g.board (hinv.2.1 hs), fun e => absurd e (by simp)⟩
  | GAME_PLAY =>
    rw [updateDrawFrame_play i g hs]
    exact updateGamePlay_winnerInvariant i g hs hinv
  | GAME_OVER =>
    rw [updateDrawFrame_over i g hs]
    rcases updateGameOver_cases i g with ⟨t, h⟩ | ⟨t, h⟩ <;> rw [h]
    · exact ⟨Or.inl rfl, fun _ _ _ => rfl, fun e => absurd e (by simp),
        fun e => absurd e (by simp)⟩
    · refine ⟨hinv.1, fun e => ?_, fun e => ?_, fun _ => hinv.2.2.2 hs⟩
      · simp only [hs] at e; exact absurd e (by simp)
      · simp only [hs] at e; exact absurd e (by simp)

theorem reachable_winnerInvariant (g : Game) (h : Reachable g) : WinnerInvariant g := by
  induction h with
  | initial =>
    exact ⟨Or.inl rfl, fun _ _ _ => rfl, fun e => absurd e (by simp [initialGame,
      ResetBoard, startGlobals]), fun e => absurd e (by simp [initialGame, ResetBoard,
      startGlobals])⟩
  | tick i g _ ih => exact updateDrawFrame_winnerInvariant i g ih

theorem reachable_verticalWinGame : Reachable verticalWinGame := by
  have h0 : Reachable (UpdateDrawFrame pressTwo initialGame) :=
    Reachable.tick pressTwo initialGame Reachable.initial
  have h1 := reachable_clickColumn _ h0 (by decide) 3 (by decide) 0
  have h2 := reachable_clickColumn _ h1 (by decide) 0 (by decide) 0
  have h3 := reachable_clickColumn _ h2 (by decide) 3 (by decide) 0
  have h4 := reachable_clickColumn _ h3 (by decide) 0 (by decide) 0
  have h5 := reachable_clickColumn _ h4 (by decide) 3 (by decide) 0
  have h6 := reachable_clickColumn _ h5 (by decide) 0 (by decide) 0
  have h7 := reachable_clickColumn _ h6 (by decide) 3 (by decide) 0
  exact h7

/-- C19: in every state reachable from the initial state by any sequence of ticks, if
the game state is Playing the board has no four-in-a-row and no winner is recorded, and
if the game state is GameOver the recorded winner is PlayerOne or PlayerTwo and the
board has a four-in-a-row of that player's disks. -/
theorem winner_attribution_sound (g : Game) (hr : Reachable g) :
    (g.gameState = GAME_PLAY → ¬ FourInARow g.board ∧ g.winningPlayer = EMPTY) ∧
      (g.gameState = GAME_OVER →
        (g.winningPlayer = PLAYER1 ∨ g.winningPlayer = PLAYER2) ∧
          LineOf g.board g.winningPlayer) :=
  ⟨fun hs => ⟨(reachable_winnerInvariant g hr).2.2.1 hs,
      (reachable_turnInvariant g hr).2.2 (by rw [hs]; simp)⟩,
    (reachable_winnerInvariant g hr).2.2.2⟩

/-- C19 in the game-over state of a two-human game won by PlayerOne in column 3. -/
theorem winner_attribution_sound_witness :
    Reachable verticalWinGame ∧ verticalWinGame.gameState = GAME_OVER ∧
      verticalWinGame.winningPlayer = PLAYER1 ∧
      LineOf verticalWinGame.board verticalWinGame.winningPlayer :=
  ⟨reachable_verticalWinGame, by decide, by decide,
    ((winner_attribution_sound verticalWinGame reachable_verticalWinGame).2 (by decide)).2⟩

/-! ## The computer's turn -/

theorem sum_map_update {α : Type} (l : List α) (a : α) (f f' : α → Nat)
    (hnd : l.Nodup) (ha : a ∈ l) (hf : f' a = f a + 1)
    (hother : ∀ b, b ≠ a → f' b = f b) : (l.map f').sum = (l.map f).sum + 1 := by
  induction l with
  | nil => simp at ha
  | cons x xs ih =>
    rw [List.nodup_cons] at hnd
    by_cases hx : x = a
    · subst hx
      have hrest : xs.map f' = xs.map f := by
        apply List.map_congr_left
        intro b hb
        exact hother b (fun e => hnd.1 (e ▸ hb))
      rw [List.map_cons, List.map_cons, List.sum_cons, List.sum_cons, hrest, hf]
      omega
    · have ha' : a ∈ xs := by
        rcases List.mem_cons.mp ha with e | e
        · exact absurd e.symm hx
        · exact e
      rw [List.map_cons, List.map_cons, List.sum_cons, List.sum_cons, ih hnd.2 ha',
        hother x hx]
      omega

theorem occupiedCount_setCell_other (board : Board) (row : Fin BOARD_HEIGHT)
    (column column' : Fin BOARD_WIDTH) (value : CellState) (hne : column' ≠ column) :
    occupiedCount (setCell board row column value) column' = occupiedCount board column' := by
  unfold occupiedCount
  apply List.countP_congr
  intro r _
  rw [setCell_other board row r column column' value (fun h => hne h.2)]

theorem diskCount_setCell (board : Board) (row : Fin BOARD_HEIGHT)
    (column : Fin BOARD_WIDTH) (value : CellState) (he : board row column = EMPTY)
    (hv : value ≠ EMPTY) :
    diskCount (setCell board row column value) = diskCount board + 1 := by
  unfold diskCount
  exact sum_map_update _ column _ _ (List.nodup_finRange _) (List.mem_finRange column)
    (occupiedCount_setCell board row column value he hv)
    (fun c hc => occupiedCount_setCell_other board row column c value hc)

theorem diskCount_full (board : Board) (hfull : ∀ row col, board row col ≠ EMPTY) :
    diskCount board = 42 := by
  have hocc : ∀ c, occupiedCount board c = 6 := by
    intro c
    unfold occupiedCount
    have : (List.finRange BOARD_HEIGHT).countP (fun row => board row c != EMPTY)
        = (List.finRange BOARD_HEIGHT).length := by
      rw [List.countP_eq_length]
      intro r _
      simp [hfull r c]
    rw [this, List.length_finRange]
  unfold diskCount
  rw [List.map_congr_left (fun c _ => hocc c)]
  decide

theorem diskCount_empty (board : Board) (h : ∀ row col, board row col = EMPTY) :
    diskCount board = 0 := by
  have e : board = emptyBoard := funext fun row => funext fun col => h row col
  rw [e]
  decide

theorem hasEmpty_of_odd (board : Board) (hodd : Odd (diskCount board)) :
    ∃ row col, board row col = EMPTY := by
  by_contra hno
  have hfull : ∀ row col, board row col ≠ EMPTY := fun row col h => hno ⟨row, col, h⟩
  rw [diskCount_full board hfull] at hodd
  exact absurd hodd (by decide)

theorem top_empty_of_gravity (board : Board) (hg : Gravity board) (row : Fin BOARD_HEIGHT)
    (col : Fin BOARD_WIDTH) (he : board row col = EMPTY) : board 0 col = EMPTY := by
  by_contra hocc
  by_cases h0 : row = 0
  · subst h0; exact hocc he
  · exact hg col 0 row hocc (Fin.pos_of_ne_zero h0) he

theorem hasEmpty_of_probe (player : CellState) (column : Fin BOARD_WIDTH) (board : Board)
    (h : (CheckWinningMove player column board).1 = true) :
    ∃ row, board row column = EMPTY := by
  cases hf : rowsBottomUp.find? (fun row => board row column == EMPTY) with
  | none =>
    rw [checkWinningMove_none player column board hf] at h
    exact absurd h (by simp)
  | some row => exact ⟨row, (find_isLowestEmpty board column row hf).1⟩

theorem getBestMove_some_of_hasEmpty (rand : Nat) (board : Board) (hg : Gravity board)
    (hne : ∃ row col, board row col = EMPTY) :
    ∃ col, (GetBestMove rand board).1 = some col ∧ ∃ row, board row col = EMPTY := by
  cases h2 : (firstWinningColumn PLAYER2 (List.finRange BOARD_WIDTH) board).1 with
  | some col =>
    exact ⟨col, getBestMove_of_player2 rand board col h2,
      hasEmpty_of_probe PLAYER2 col board
        (firstWinningColumn_some PLAYER2 _ board (List.pairwise_lt_finRange _) col h2).2.1⟩
  | none =>
    cases h1 : (firstWinningColumn PLAYER1 (List.finRange BOARD_WIDTH) board).1 with
    | some col =>
      exact ⟨col, getBestMove_of_player1 rand board col h2 h1,
        hasEmpty_of_probe PLAYER1 col board
          (firstWinningColumn_some PLAYER1 _ board (List.pairwise_lt_finRange _) col h1).2.1⟩
    | none =>
      obtain ⟨row, col, he⟩ := hne
      obtain ⟨col', hsome⟩ := getRandomValidColumn_isSome rand board col
        (top_empty_of_gravity board hg row col he)
      exact ⟨col', by rw [getBestMove_of_none rand board h2 h1]; exact hsome,
        0, getRandomValidColumn_some rand board col' hsome⟩

theorem computerMove_places (rand : Nat) (g : Game) (hg : Gravity g.board)
    (hne : ∃ row col, g.board row col = EMPTY) :
    ∃ col row, (GetBestMove rand g.board).1 = some col ∧ IsLowestEmpty g.board col row ∧
      (PlaceDisk col g).1 = true ∧
      (ComputerMove rand g).board = setCell g.board row col g.currentPlayer := by
  obtain ⟨col, hbest, row0, he⟩ := getBestMove_some_of_hasEmpty rand g.board hg hne
  obtain ⟨row, hf⟩ := find_of_hasEmpty g.board col row0 he
  have hb : (GetBestMove rand g.board).2 = g.board := getBestMove_board rand g.board
  refine ⟨col, row, hbest, find_isLowestEmpty g.board col row hf,
    by rw [placeDisk_some col g row hf], ?_⟩
  unfold ComputerMove
  simp only [hb, hbest]
  rw [placeDisk_some col { g with board := g.board } row hf]

theorem odd_succ_of_even (n : Nat) (h : Even n) : Odd (n + 1) := by
  obtain ⟨k, hk⟩ := h
  exact ⟨k, by omega⟩

theorem even_succ_of_odd (n : Nat) (h : Odd n) : Even (n + 1) := by
  obtain ⟨k, hk⟩ := h
  exact ⟨k + 1, by omega⟩

theorem afterPlacement_parity (rand : Nat) (p : Game) (hg : Gravity p.board)
    (hturn : p.isComputerMode = true → p.currentPlayer = PLAYER1)
    (hodd : p.isComputerMode = true → Odd (diskCount p.board)) :
    ParityInvariant (afterPlacement rand p) := by
  cases hc : CheckWin p.board with
  | true =>
    rw [afterPlacement_win rand p hc]
    intro e
    exact absurd e (by simp)
  | false =>
    by_cases h2 : p.isComputerMode = false ∨ p.currentPlayer ≠ PLAYER1
    · rw [afterPlacement_pass rand p hc h2]
      intro _ hm
      simp only at hm
      rcases h2 with h2 | h2
      · rw [h2] at hm; exact absurd hm (by simp)
      · exact absurd (hturn hm) h2
    · have hmode : p.isComputerMode = true := by
        cases hx : p.isComputerMode with
        | true => rfl
        | false => exact absurd (Or.inl hx) h2
      have hplayer : p.currentPlayer = PLAYER1 := by
        by_contra hne
        exact h2 (Or.inr hne)
      obtain ⟨col, row, -, hlow, -, hboard⟩ :=
        computerMove_places rand { p with currentPlayer := PLAYER2 } hg
          (hasEmpty_of_odd p.board (hodd hmode))
      have heven : Even (diskCount
          (ComputerMove rand { p with currentPlayer := PLAYER2 }).board) := by
        rw [hboard]
        simp only
        rw [diskCount_setCell p.board row col PLAYER2 hlow.1 (by decide)]
        exact even_succ_of_odd _ (hodd hmode)
      rw [afterPlacement_computer rand p hc hmode hplayer]
      split
      · intro e
        exact absurd e (by simp)
      · intro _ _
        exact heven

theorem updateGamePlay_parity (i : Input) (g : Game) (hs : g.gameState = GAME_PLAY)
    (hg : Gravity g.board) (hturn : TurnInvariant g) (hpar : ParityInvariant g) :
    ParityInvariant (updateGamePlay i g) := by
  cases hclick : i.mouseLeft with
  | false => rw [updateGamePlay_noclick i g hclick]; exact hpar
  | true =>
    cases hcol : GetColumnFromMouse i.mousePos with
    | none => rw [updateGamePlay_nocolumn i g hcol]; exact hpar
    | some column =>
      rw [updateGamePlay_click i g column hclick hcol]
      cases hf : rowsBottomUp.find? (fun row => g.board row column == EMPTY) with
      | none =>
        rw [placeDisk_none column g hf]
        rw [if_neg (by simp)]
        exact hpar
      | some row =>
        have hlow := find_isLowestEmpty g.board column row hf
        rw [placeDisk_some column g row hf]
        rw [if_pos rfl]
        apply afterPlacement_parity
        · exact gravity_setCell g.board column row _ hg hlow
        · exact hturn.2.1 hs
        · intro hm
          have hp : g.currentPlayer = PLAYER1 := hturn.2.1 hs hm
          simp only
          rw [diskCount_setCell g.board row column _ hlow.1 (by rw [hp]; decide)]
          exact odd_succ_of_even _ (hpar hs hm)

theorem updateDrawFrame_parity (i : Input) (g : Game) (hg : Gravity g.board)
    (hturn : TurnInvariant g) (hwin : WinnerInvariant g) (hpar : ParityInvariant g) :
    ParityInvariant (UpdateDrawFrame i g) := by
  cases hs : g.gameState with
  | TITLE_SCREEN =>
    rw [updateDrawFrame_title i g hs]
    rcases updateTitleScreen_cases i g with h | ⟨mode, sounds, h⟩ <;> rw [h]
    · exact hpar
    · intro _ _
      simp only
      rw [diskCount_empty g.board (hwin.2.1 hs)]
      exact ⟨0, rfl⟩
  | GAME_PLAY =>
    rw [updateDrawFrame_play i g hs]
    exact updateGamePlay_parity i g hs hg hturn hpar
  | GAME_OVER =>
    rw [updateDrawFrame_over i g hs]
    rcases updateGameOver_cases i g with ⟨t, h⟩ | ⟨t, h⟩ <;> rw [h]
    · intro e
      exact absurd e (by simp)
    · intro e
      simp only [hs] at e
      exact absurd e (by simp)

theorem reachable_parity (g : Game) (h : Reachable g) : ParityInvariant g := by
  induction h with
  | initial =>
    intro e
    exact absurd e (by simp [initialGame, ResetBoard, startGlobals])
  | tick i g hr ih =>
    exact updateDrawFrame_parity i g (reachable_gravity g hr) (reachable_turnInvariant g hr)
      (reachable_winnerInvariant g hr) ih

/-- C20: in a reachable Playing state in computer mode, after a successful human
placement that completes no four-in-a-row, the board on which `ComputerMove` is invoked
holds an odd number of disks; `GetBestMove` returns, for every random draw, a column that
still has an `EMPTY` cell; the computer's `PlaceDisk` succeeds; and the board after
`ComputerMove` is that board with exactly one more disk, of PlayerTwo, on the lowest
`EMPTY` cell of the chosen column. The tick ends on that board. -/
theorem computer_never_skips_turn (g : Game) (column : Fin BOARD_WIDTH) (rand : Nat)
    (hr : Reachable g) (hs : g.gameState = GAME_PLAY) (hm : g.isComputerMode = true)
    (hok : (PlaceDisk column g).1 = true)
    (hnowin : ¬ FourInARow (PlaceDisk column g).2.board) :
    Odd (diskCount (PlaceDisk column g).2.board) ∧
      ∃ col row, (GetBestMove rand (PlaceDisk column g).2.board).1 = some col ∧
        IsLowestEmpty (PlaceDisk column g).2.board col row ∧
        (PlaceDisk col { (PlaceDisk column g).2 with currentPlayer := PLAYER2 }).1 = true ∧
        (ComputerMove rand { (PlaceDisk column g).2 with currentPlayer := PLAYER2 }).board =
          setCell (PlaceDisk column g).2.board row col PLAYER2 ∧
        diskCount (ComputerMove rand
            { (PlaceDisk column g).2 with currentPlayer := PLAYER2 }).board =
          diskCount (PlaceDisk column g).2.board + 1 ∧
        (clickColumn column rand g).board =
          setCell (PlaceDisk column g).2.board row col PLAYER2 := by
  have hturn := reachable_turnInvariant g hr
  have hp : g.currentPlayer = PLAYER1 := hturn.2.1 hs hm
  obtain ⟨f1, -, -, -, f5⟩ := placeDisk_frame column g
  have hodd : Odd (diskCount (PlaceDisk column g).2.board) := by
    cases hf : rowsBottomUp.find? (fun row => g.board row column == EMPTY) with
    | none =>
      rw [placeDisk_none column g hf] at hok
      exact absurd hok (by simp)
    | some row =>
      rw [placeDisk_some column g row hf]
      simp only
      rw [diskCount_setCell g.board row column _
        (find_isLowestEmpty g.board column row hf).1 (by rw [hp]; decide)]
      exact odd_succ_of_even _ (reachable_parity g hr hs hm)
  have hcw : CheckWin (PlaceDisk column g).2.board = false := by
    cases hc : CheckWin (PlaceDisk column g).2.board with
    | false => rfl
    | true => exact absurd ((checkWin_iff _).mp hc) hnowin
  obtain ⟨col, row, hbest, hlow, hplace, hboard⟩ :=
    computerMove_places rand { (PlaceDisk column g).2 with currentPlayer := PLAYER2 }
      (placeDisk_gravity column g (reachable_gravity g hr)) (hasEmpty_of_odd _ hodd)
  refine ⟨hodd, col, row, hbest, hlow, hplace, hboard, ?_, ?_⟩
  · rw [hboard]
    exact diskCount_setCell _ row col PLAYER2 hlow.1 (by decide)
  · unfold clickColumn
    simp only [hok, if_true]
    rw [afterPlacement_computer rand _ hcw (by rw [f5]; exact hm) (by rw [f1]; exact hp)]
    split
    · exact hboard
    · exact hboard

/-- C20 at the first click, on column 3, of a game against the computer. -/
theorem computer_never_skips_turn_witness :
    Reachable (computerGame emptyBoard 0) ∧
      (computerGame emptyBoard 0).gameState = GAME_PLAY ∧
      (computerGame emptyBoard 0).isComputerMode = true ∧
      (PlaceDisk 3 (computerGame emptyBoard 0)).1 = true ∧
      ¬ FourInARow (PlaceDisk 3 (computerGame emptyBoard 0)).2.board ∧
      Odd (diskCount (PlaceDisk 3 (computerGame emptyBoard 0)).2.board) ∧
      ∃ col row, (GetBestMove 6 (PlaceDisk 3 (computerGame emptyBoard 0)).2.board).1
          = some col ∧
        IsLowestEmpty (PlaceDisk 3 (computerGame emptyBoard 0)).2.board col row ∧
        (PlaceDisk col { (PlaceDisk 3 (computerGame emptyBoard 0)).2 with
          currentPlayer := PLAYER2 }).1 = true ∧
        (ComputerMove 6 { (PlaceDisk 3 (computerGame emptyBoard 0)).2 with
            currentPlayer := PLAYER2 }).board =
          setCell (PlaceDisk 3 (computerGame emptyBoard 0)).2.board row col PLAYER2 ∧
        diskCount (ComputerMove 6
            { (PlaceDisk 3 (computerGame emptyBoard 0)).2 with
              currentPlayer := PLAYER2 }).board =
          diskCount (PlaceDisk 3 (computerGame emptyBoard 0)).2.board + 1 ∧
        (clickColumn 3 6 (computerGame emptyBoard 0)).board =
          setCell (PlaceDisk 3 (computerGame emptyBoard 0)).2.board row col PLAYER2 :=
  ⟨Reachable.tick pressOne initialGame Reachable.initial, rfl, rfl, by decide,
    fun h => absurd ((checkWin_iff _).mpr h) (by decide),
    computer_never_skips_turn (computerGame emptyBoard 0) 3 6
      (Reachable.tick pressOne initialGame Reachable.initial) rfl rfl (by decide)
      (fun h => absurd ((checkWin_iff _).mpr h) (by decide))⟩

end RConnect4
